import Mathlib

/-!
Shallow embedding of the CHIP-8 interpreter core (src/src/chip8.c together
with the state definition in src/include/chip8.h).

Modelling conventions:
* Machine integers are `Nat`; every store into a `uint8_t` field truncates
  with `% 256`, every store into a `uint16_t` field truncates with `% 65536`,
  exactly where the C performs the implicit conversion.
* The fixed C arrays (`V[16]`, `stack[16]`, `keypad[16]`, `memory[4096]`,
  `display[64*32]`) are modelled as total functions from `Nat`.  The 4096-byte
  `memory` array is only ever touched through `memRead`/`memWrite`, which make
  the array bound explicit: an access at an address `≥ 4096` is an
  out-of-bounds array access in the C program and is modelled as a fault.
* `exit(EXIT_FAILURE)` on an unrecognised opcode or on stack overflow is
  modelled by the `Fault` error monad (`Except Fault`).
* `rand()` in the `CXNN` handler is an external input; the single-step
  function takes the value it returns as an explicit argument `r`.
-/

inductive Fault where
  | unknownOpcode (op : Nat)
  | stackOverflow
  | outOfBounds (addr : Nat)
deriving DecidableEq

def CHIP8_STACK_SIZE : Nat := 16

def CHIP8_MEMORY_SIZE : Nat := 4096

structure Chip8 where
  opcode : Nat
  index : Nat
  pc : Nat
  stack : Nat → Nat
  sound : Nat
  delay : Nat
  sp : Nat
  V : Nat → Nat
  keypad : Nat → Bool
  memory : Nat → Nat
  display : Nat → Bool

/-- Read `chip8->memory[a]`; the array has 4096 entries, so an access past
the end is an out-of-bounds fault. -/
def memRead (s : Chip8) (a : Nat) : Except Fault Nat :=
  if a < 4096 then .ok (s.memory a) else .error (.outOfBounds a)

/-- Write `chip8->memory[a] = v` (a `uint8_t` store, hence `% 256`). -/
def memWrite (s : Chip8) (a v : Nat) : Except Fault Chip8 :=
  if a < 4096 then
    .ok { s with memory := Function.update s.memory a (v % 256) }
  else .error (.outOfBounds a)

/-- Write `chip8->V[i] = v` (a `uint8_t` store, hence `% 256`). -/
def setV (s : Chip8) (i v : Nat) : Chip8 :=
  { s with V := Function.update s.V i (v % 256) }

/-- `jump`: `chip8->pc = NNN` (a `uint16_t` store). -/
def jump (s : Chip8) (NNN : Nat) : Chip8 :=
  { s with pc := NNN % 65536 }

/-- `push`: fatal stack overflow check, then `stack[sp++] = pc`. -/
def push (s : Chip8) : Except Fault Chip8 :=
  if s.sp > CHIP8_STACK_SIZE - 1 then .error .stackOverflow
  else .ok { s with
    stack := Function.update s.stack s.sp (s.pc % 65536),
    sp := (s.sp + 1) % 256 }

/-- `pop`: no-op on an empty stack, else `jump(chip8, stack[--sp])`. -/
def pop (s : Chip8) : Chip8 :=
  if s.sp = 0 then s
  else jump { s with sp := s.sp - 1 } (s.stack (s.sp - 1))

/-- `convert_binary_to_decimal_and_load`: write the decimal digits of
`V[(opcode & 0x0F00) >> 8]` to `memory[index]`, `memory[index+1]`,
`memory[index+2]`. -/
def convert_binary_to_decimal_and_load (s : Chip8) : Except Fault Chip8 := do
  let value := s.V ((s.opcode &&& 0x0F00) >>> 8)
  let ones := value % 10
  let tens := value / 10 % 10
  let hundreds := value / 100 % 10
  let s1 ← memWrite s (s.index + 0) hundreds
  let s2 ← memWrite s1 (s1.index + 1) tens
  let s3 ← memWrite s2 (s2.index + 2) ones
  .ok s3

/-- `x0`: clear screen (`00E0`), return (`00EE`), else unrecognised. -/
def x0 (s : Chip8) : Except Fault Chip8 :=
  if s.opcode = 0x00E0 then .ok { s with display := fun _ => false }
  else if s.opcode = 0x00EE then .ok (pop s)
  else .error (.unknownOpcode s.opcode)

/-- `x1`: `1NNN`, jump to `NNN`. -/
def x1 (s : Chip8) : Except Fault Chip8 :=
  .ok (jump s (s.opcode &&& 0x0FFF))

/-- `x2`: `2NNN`, call subroutine: push pc then jump to `NNN`. -/
def x2 (s : Chip8) : Except Fault Chip8 := do
  let t ← push s
  .ok (jump t (t.opcode &&& 0x0FFF))

/-- `x3`: `3XNN`, skip next instruction if `VX == NN`. -/
def x3 (s : Chip8) : Except Fault Chip8 :=
  let VX := s.V ((s.opcode &&& 0x0F00) >>> 8)
  let NN := s.opcode &&& 0xFF
  if VX = NN then .ok { s with pc := (s.pc + 2) % 65536 } else .ok s

/-- `x4`: `4XNN`, skip next instruction if `VX != NN`. -/
def x4 (s : Chip8) : Except Fault Chip8 :=
  let VX := s.V ((s.opcode &&& 0x0F00) >>> 8)
  let NN := s.opcode &&& 0xFF
  if VX ≠ NN then .ok { s with pc := (s.pc + 2) % 65536 } else .ok s

/-- `x5`: `5XY0`, skip next instruction if `VX == VY`.  NOTE: the source
reads `chip8->V[(chip8->opcode & 0x00F0) >> 8]` — an 8-bit shift — for the
second operand, which is the expression embedded here verbatim. -/
def x5 (s : Chip8) : Except Fault Chip8 :=
  let VX := s.V ((s.opcode &&& 0x0F00) >>> 8)
  let VY := s.V ((s.opcode &&& 0x00F0) >>> 8)
  if VX = VY then .ok { s with pc := (s.pc + 2) % 65536 } else .ok s

/-- `x6`: `6XNN`, set `VX` to `NN`. -/
def x6 (s : Chip8) : Except Fault Chip8 :=
  .ok (setV s ((s.opcode &&& 0x0F00) >>> 8) (s.opcode &&& 0x00FF))

/-- `x7`: `7XNN`, add `NN` to `VX` (8-bit wraparound, no flag). -/
def x7 (s : Chip8) : Except Fault Chip8 :=
  let X := (s.opcode &&& 0x0F00) >>> 8
  .ok (setV s X (s.V X + (s.opcode &&& 0x00FF)))

/-- `x8`: the `8XY?` register-to-register ALU family.  `VY` is read once at
entry (`(opcode & 0x00F0) >> 4`); subtraction results reflect the unsigned
8-bit wraparound `(a - b) mod 256`, written `(a + 256 - b) % 256` (the forms
agree whenever the registers hold bytes, which every C store guarantees). -/
def x8 (s : Chip8) : Except Fault Chip8 :=
  let code := s.opcode &&& 0x000F
  let X := (s.opcode &&& 0x0F00) >>> 8
  let VY := s.V ((s.opcode &&& 0x00F0) >>> 4)
  if code = 0x0 then .ok (setV s X VY)
  else if code = 0x1 then .ok (setV s X (s.V X ||| VY))
  else if code = 0x2 then .ok (setV s X (s.V X &&& VY))
  else if code = 0x3 then .ok (setV s X (s.V X ^^^ VY))
  else if code = 0x4 then
    let overflow := s.V X + VY > 0xFF
    .ok (setV (setV s X (s.V X + VY)) 0xF (if overflow then 1 else 0))
  else if code = 0x5 then
    let underflow := VY > s.V X
    .ok (setV (setV s X (s.V X + 256 - VY)) 0xF (if underflow then 0x0 else 0x1))
  else if code = 0x6 then
    let dropped_bit := s.V X &&& 0x1
    .ok (setV (setV s X (s.V X >>> 1)) 0xF dropped_bit)
  else if code = 0x7 then
    let underflow := s.V X > VY
    .ok (setV (setV s X (VY + 256 - s.V X)) 0xF (if underflow then 0x0 else 0x1))
  else if code = 0xE then
    let dropped_bit := s.V X >>> 7
    .ok (setV (setV s X (s.V X <<< 1)) 0xF dropped_bit)
  else .error (.unknownOpcode s.opcode)

/-- `x9`: `9XY0`, skip next instruction if `VX != VY` (4-bit shift for Y). -/
def x9 (s : Chip8) : Except Fault Chip8 :=
  let VX := s.V ((s.opcode &&& 0x0F00) >>> 8)
  let VY := s.V ((s.opcode &&& 0x00F0) >>> 4)
  if VX ≠ VY then .ok { s with pc := (s.pc + 2) % 65536 } else .ok s

/-- `xA`: `ANNN`, set the index register to `NNN`. -/
def xA (s : Chip8) : Except Fault Chip8 :=
  .ok { s with index := (s.opcode &&& 0x0FFF) % 65536 }

/-- `xB`: `BNNN`, jump to `NNN + V0` (the jump quirk is a dead `false`). -/
def xB (s : Chip8) : Except Fault Chip8 :=
  let NNN := (s.opcode &&& 0x0FFF) + s.V 0x0
  .ok (jump s NNN)

/-- `xC`: `CXNN`, set `VX` to `rand() & NN`; the `rand()` result is the
explicit argument `r`. -/
def xC (s : Chip8) (r : Nat) : Except Fault Chip8 :=
  let NN := s.opcode &&& 0x00FF
  .ok (setV s ((s.opcode &&& 0x0F00) >>> 8) (r &&& NN))

/-- `xE`: `EX9E` / `EXA1`, skip on key state of key `VX`. -/
def xE (s : Chip8) : Except Fault Chip8 :=
  let VX := s.V ((s.opcode &&& 0x0F00) >>> 8)
  let isKeyPressed := s.keypad VX
  if s.opcode &&& 0x00FF = 0x9E then
    if isKeyPressed then .ok { s with pc := (s.pc + 2) % 65536 } else .ok s
  else if s.opcode &&& 0x00FF = 0xA1 then
    if isKeyPressed then .ok s else .ok { s with pc := (s.pc + 2) % 65536 }
  else .error (.unknownOpcode s.opcode)

/-- One bit of the current sprite byte: `(pixelByte & (0x80 >> col)) >> (7 - col)`
converted to `bool`. -/
def spriteBit (pixelByte col : Nat) : Bool :=
  ((pixelByte &&& (0x80 >>> col)) >>> (7 - col)) != 0

/-- The body of the inner draw loop for one screen position: XOR the sprite
bit into `display[dIdx]`, recording a collision in `V[0xF]`. -/
def drawPixel (s : Chip8) (pixel : Bool) (dIdx : Nat) : Chip8 :=
  if pixel && s.display dIdx then
    { s with display := Function.update s.display dIdx false,
             V := Function.update s.V 0xF 1 }
  else if pixel && !(s.display dIdx) then
    { s with display := Function.update s.display dIdx true }
  else s

/-- The inner (`col`) loop of `xD`: iterate `col` while `fuel` remains,
breaking at the right edge of the screen. -/
def drawCols (X Yr pixelByte : Nat) : Nat → Nat → Chip8 → Chip8
  | 0, _, s => s
  | fuel + 1, col, s =>
    if X + col > 63 then s
    else
      drawCols X Yr pixelByte fuel (col + 1)
        (drawPixel s (spriteBit pixelByte col) ((X + col) + Yr * 64))

/-- The outer (`row`) loop of `xD`: read the sprite byte for the row (the
read precedes the bottom-of-screen break, as in the source), then run the
column loop. -/
def drawRows (X Y : Nat) : Nat → Nat → Chip8 → Except Fault Chip8
  | 0, _, s => .ok s
  | fuel + 1, row, s => do
    let pixelByte ← memRead s (s.index + row)
    if Y + row > 31 then .ok s
    else drawRows X Y fuel (row + 1) (drawCols X (Y + row) pixelByte 8 0 s)

/-- `xD`: `DXYN`, draw an `N`-row sprite from `memory[index..]` at
`(VX % 64, VY % 32)`, having first reset `V[0xF]` to 0. -/
def xD (s : Chip8) : Except Fault Chip8 :=
  let X := s.V ((s.opcode &&& 0x0F00) >>> 8) % 64
  let Y := s.V ((s.opcode &&& 0x00F0) >>> 4) % 32
  let N := s.opcode &&& 0x000F
  drawRows X Y N 0 { s with V := Function.update s.V 0xF 0 }

/-- The `FX0A` scan loop: `for (i = 0; i < 0x10; i++) if (keypad[i]) ...`,
returning the first pressed key index if any. -/
def scanKeys (k : Nat → Bool) : Nat → Nat → Option Nat
  | 0, _ => none
  | fuel + 1, i => if k i then some i else scanKeys k fuel (i + 1)

/-- The `FX55` loop: `for (i = 0; i <= X; i++) memory[initialIndex + i] = V[i]`
(the index-increment quirk is a dead `false`); `fuel` counts the `X + 1`
iterations. -/
def storeRegsLoop (ii : Nat) : Nat → Nat → Chip8 → Except Fault Chip8
  | 0, _, s => .ok s
  | fuel + 1, i, s => do
    let t ← memWrite s (ii + i) (s.V i)
    storeRegsLoop ii fuel (i + 1) t

/-- The `FX65` loop: `for (i = 0; i <= X; i++) V[i] = memory[initialIndex + i]`. -/
def loadRegsLoop (ii : Nat) : Nat → Nat → Chip8 → Except Fault Chip8
  | 0, _, s => .ok s
  | fuel + 1, i, s => do
    let b ← memRead s (ii + i)
    loadRegsLoop ii fuel (i + 1) (setV s i b)

/-- `xF`: the miscellaneous `FX??` family. -/
def xF (s : Chip8) : Except Fault Chip8 :=
  let code := s.opcode &&& 0x00FF
  let X := (s.opcode &&& 0x0F00) >>> 8
  let initialIndex := s.index
  if code = 0x07 then .ok (setV s X s.delay)
  else if code = 0x0A then
    match scanKeys s.keypad 0x10 0 with
    | some i => .ok (setV s X i)
    | none => .ok { s with pc := (s.pc + 65534) % 65536 }
  else if code = 0x15 then .ok { s with delay := s.V X % 256 }
  else if code = 0x18 then .ok { s with sound := s.V X % 256 }
  else if code = 0x1E then
    let s2 := { s with index := (s.index + s.V X) % 65536 }
    .ok (setV s2 0xF (if s2.index ≥ 0x1000 then 1 else 0))
  else if code = 0x29 then .ok { s with index := (0 + s.V X * 5) % 65536 }
  else if code = 0x33 then convert_binary_to_decimal_and_load s
  else if code = 0x55 then storeRegsLoop initialIndex (X + 1) 0 s
  else if code = 0x65 then loadRegsLoop initialIndex (X + 1) 0 s
  else .error (.unknownOpcode s.opcode)

/-- The `OPS` dispatch table applied at entry `importantNibble` (the decoded
nibble is always `≤ 15`, so the final branch is the `xF` entry). -/
def dispatch (s : Chip8) (r : Nat) (importantNibble : Nat) : Except Fault Chip8 :=
  if importantNibble = 0x0 then x0 s
  else if importantNibble = 0x1 then x1 s
  else if importantNibble = 0x2 then x2 s
  else if importantNibble = 0x3 then x3 s
  else if importantNibble = 0x4 then x4 s
  else if importantNibble = 0x5 then x5 s
  else if importantNibble = 0x6 then x6 s
  else if importantNibble = 0x7 then x7 s
  else if importantNibble = 0x8 then x8 s
  else if importantNibble = 0x9 then x9 s
  else if importantNibble = 0xA then xA s
  else if importantNibble = 0xB then xB s
  else if importantNibble = 0xC then xC s r
  else if importantNibble = 0xD then xD s
  else if importantNibble = 0xE then xE s
  else xF s

/-- Decode the top nibble and index the `OPS` table with it. -/
def execOp (s : Chip8) (r : Nat) : Except Fault Chip8 :=
  dispatch s r ((s.opcode &&& 0xF000) >>> 12)

/-- `chip8_clock`: fetch the big-endian opcode at `pc` (two in-bounds memory
reads), advance `pc` by 2, dispatch, then tick both timers down by one if
nonzero.  `r` is the value `rand()` would return during this step. -/
def chip8_clock (s : Chip8) (r : Nat) : Except Fault Chip8 := do
  let hi ← memRead s s.pc
  let lo ← memRead s (s.pc + 1)
  let f := { s with opcode := (hi <<< 8 ||| lo) % 65536, pc := (s.pc + 2) % 65536 }
  let t ← execOp f r
  .ok { t with delay := if t.delay > 0 then t.delay - 1 else t.delay,
               sound := if t.sound > 0 then t.sound - 1 else t.sound }

/-- The `fread` of `chip8_load_ROM`: copy the ROM bytes into memory starting
at address `a` (the success path writes stay below 4096 because the size was
checked first). -/
def copyROM : Chip8 → List Nat → Nat → Chip8
  | s, [], _ => s
  | s, b :: rest, a =>
      copyROM { s with memory := Function.update s.memory a (b % 256) } rest (a + 1)

/-- `chip8_load_ROM`, modelled on the byte sequence the file contains: reject
an image larger than `CHIP8_MEMORY_SIZE - 512` before any write, else copy it
to `memory[0x200..]`.  Returns the C function's `bool` along with the
(possibly updated) machine. -/
def chip8_load_ROM (s : Chip8) (rom : List Nat) : Bool × Chip8 :=
  if rom.length > CHIP8_MEMORY_SIZE - 512 then (false, s)
  else (true, copyROM s rom 0x200)

/-- `n` consecutive executions of the `2NNN` call handler (each nested call
executes `x2` on the machine produced by the previous one). -/
def callChain : Nat → Chip8 → Except Fault Chip8
  | 0, s => .ok s
  | n + 1, s => do
    let t ← callChain n s
    x2 t

/-- Apply `f` to the machine an `Except`-valued execution produced, if any. -/
def onOk (e : Except Fault Chip8) (f : Chip8 → α) : Option α :=
  match e with
  | .ok t => some (f t)
  | .error _ => none

/-- The set of display cells the `DXYN` blit toggles, as a function of the
decoded coordinates `X Y`, the height `N`, the sprite source (`mem`, `idx`)
and the cell `i`: some unclipped row/column of the sprite has its bit set and
lands on `i`. -/
def DrawMaskP (X Y N : Nat) (mem : Nat → Nat) (idx i : Nat) : Prop :=
  ∃ r, r < N ∧ Y + r ≤ 31 ∧ ∃ c, c < 8 ∧ X + c ≤ 63 ∧
    spriteBit (mem (idx + r)) c = true ∧ i = (X + c) + (Y + r) * 64

instance (X Y N : Nat) (mem : Nat → Nat) (idx i : Nat) :
    Decidable (DrawMaskP X Y N mem idx i) := by
  unfold DrawMaskP; infer_instance

/-- Boolean form of `DrawMaskP`. -/
def drawMask (X Y N : Nat) (mem : Nat → Nat) (idx i : Nat) : Bool :=
  decide (DrawMaskP X Y N mem idx i)

/-- Some unclipped, set sprite pixel lands on a cell that is set in the
framebuffer `d` (the collision condition of the `DXYN` blit). -/
def drawHits (X Y N : Nat) (mem : Nat → Nat) (idx : Nat) (d : Nat → Bool) : Prop :=
  ∃ r, r < N ∧ Y + r ≤ 31 ∧ ∃ c, c < 8 ∧ X + c ≤ 63 ∧
    spriteBit (mem (idx + r)) c = true ∧ d ((X + c) + (Y + r) * 64) = true

instance (X Y N : Nat) (mem : Nat → Nat) (idx : Nat) (d : Nat → Bool) :
    Decidable (drawHits X Y N mem idx d) := by
  unfold drawHits; infer_instance

/-- An all-zero machine with `pc = 0x200`, used as the base of the concrete
states below. -/
def baseState : Chip8 where
  opcode := 0
  index := 0
  pc := 0x200
  stack := fun _ => 0
  sound := 0
  delay := 0
  sp := 0
  V := fun _ => 0
  keypad := fun _ => false
  memory := fun _ => 0
  display := fun _ => false

/-- Concrete machine about to execute `5XY0` with `X = 1`, `Y = 2`,
`V1 = V2 = 5` but `V0 = 7` (pc already advanced past the instruction). -/
def cexSkipEq : Chip8 :=
  { baseState with
    opcode := 0x5120
    pc := 0x202
    V := fun i => if i = 1 then 5 else if i = 2 then 5 else if i = 0 then 7 else 0 }

/-- Concrete machine about to execute `F033` (store-BCD) with
`index = 0xFFF`: the second digit write lands at address `0x1000`. -/
def cexBCD : Chip8 :=
  { baseState with opcode := 0xF033, pc := 0x202, index := 0xFFF }

/-- Concrete machine about to execute `DF01`: the draw instruction whose X
coordinate register is `VF` itself (`V[0xF] = 1`, sprite byte `0x80` at
`memory[0]`). -/
def cexDrawVF : Chip8 :=
  { baseState with
    opcode := 0xDF01
    pc := 0x202
    V := fun i => if i = 0xF then 1 else 0
    memory := fun a => if a = 0 then 0x80 else 0 }

/-- Concrete machine whose next instruction is `F015` (set delay timer from
`V0 = 0`) while the delay timer holds 5. -/
def cexDelay : Chip8 :=
  { baseState with
    delay := 5
    memory := fun a => if a = 0x200 then 0xF0 else if a = 0x201 then 0x15 else 0 }

/-- `5XY0` machine with `X = 1`, `Y = 2`, `V0 = V1 = 5`, `V2 = 9`: the claimed
operands differ, yet the handler compares `V1` against `V0`. -/
def cexSkipEq2 : Chip8 :=
  { baseState with
    opcode := 0x5120
    pc := 0x202
    V := fun i => if i = 1 then 5 else if i = 2 then 9 else if i = 0 then 5 else 0 }

/-- `true` iff the execution did not fault. -/
def okB (e : Except Fault Chip8) : Bool :=
  match e with
  | .ok _ => true
  | .error _ => false

theorem okBind {α β : Type} (a : α) (f : α → Except Fault β) :
    (Except.ok a >>= f : Except Fault β) = f a := rfl

theorem errBind {α β : Type} (e : Fault) (f : α → Except Fault β) :
    (Except.error e >>= f : Except Fault β) = .error e := rfl

theorem setV_V (s : Chip8) (i v j : Nat) :
    (setV s i v).V j = if j = i then v % 256 else s.V j := by
  simp [setV, Function.update_apply]

/-- Claim C1: the `5XY0` handler decodes its second operand with an 8-bit
shift, so it reads `V0` instead of `VY`: with `V1 = 5, V2 = 9, V0 = 5` it
skips (pc `0x202 → 0x204`) although `V1 ≠ V2`, and with `V1 = V2 = 5,
V0 = 7` it does not skip although `V1 = V2` — contradicting the claimed
decoding, which matches the 4-bit shift used by `9XY0`. -/
theorem skip_eq_reg_reads_V0 :
    cexSkipEq2.V 1 ≠ cexSkipEq2.V 2 ∧
    onOk (x5 cexSkipEq2) Chip8.pc = some 0x204 ∧
    cexSkipEq.V 1 = cexSkipEq.V 2 ∧
    onOk (x5 cexSkipEq) Chip8.pc = some 0x202 := by
  refine ⟨by decide, rfl, rfl, rfl⟩

/-- `8XY4` machine: `X = 0xF`, `Y = 2`, `VF = 200`, `V2 = 100`. -/
def addWit : Chip8 :=
  { baseState with
    opcode := 0x8F24
    V := fun i => if i = 0xF then 200 else if i = 2 then 100 else 0 }

/-- Claim C3: `8XY4` stores `(a + b) % 256` in `VX` (when `X ≠ 0xF`), sets
`VF` to 1 exactly when `a + b > 255`, computes the carry from the operand
values read before any write (so for `X = 0xF` the pre-instruction `VF` is
the operand), writes `VF` last, and touches no other register. -/
theorem reg_add_carry_spec (s : Chip8) (X Y : Nat)
    (hx : (s.opcode &&& 0x0F00) >>> 8 = X)
    (hy : (s.opcode &&& 0x00F0) >>> 4 = Y)
    (hcode : s.opcode &&& 0x000F = 0x4)
    (ha : s.V X < 256) (hb : s.V Y < 256) :
    ∃ t, x8 s = .ok t ∧
      t.V 0xF = (if s.V X + s.V Y > 255 then 1 else 0) ∧
      (X ≠ 0xF → t.V X = (s.V X + s.V Y) % 256) ∧
      (∀ j, j ≠ X → j ≠ 0xF → t.V j = s.V j) := by
  have h8 : x8 s = .ok (setV (setV s X (s.V X + s.V Y)) 0xF
      (if s.V X + s.V Y > 255 then 1 else 0)) := by
    simp [x8, hx, hy, hcode]
  refine ⟨_, h8, ?_, ?_, ?_⟩
  · rw [setV_V, if_pos rfl]
    split <;> simp
  · intro hXF
    rw [setV_V, if_neg (by omega), setV_V, if_pos rfl]
  · intro j hjX hjF
    rw [setV_V, if_neg (by omega), setV_V, if_neg (by omega)]

/-- Claim C3 witness: `VF = 200` plus `V2 = 100` overflows, so the final
`VF` is the carry 1. -/
theorem reg_add_carry_spec_witness :
    ∃ t, x8 addWit = .ok t ∧
      t.V 0xF = (if addWit.V 0xF + addWit.V 2 > 255 then 1 else 0) ∧
      ((0xF : Nat) ≠ 0xF → t.V 0xF = (addWit.V 0xF + addWit.V 2) % 256) ∧
      (∀ j, j ≠ 0xF → j ≠ 0xF → t.V j = addWit.V j) :=
  reg_add_carry_spec addWit 0xF 2 (by decide) (by decide) (by decide)
    (by decide) (by decide)

/-- `8XY7` machine: `X = 1`, `Y = 2`, `V1 = V2 = 5`. -/
def subnWit : Chip8 :=
  { baseState with
    opcode := 0x8127
    V := fun i => if i = 1 then 5 else if i = 2 then 5 else 0 }

/-- Claim C10: `8XY7` stores `(VY - VX) mod 256` in `VX` (written
`(b + 256 - a) % 256` for byte operands) and then sets `VF` to 1 exactly when
`VY ≥ VX` (so equality gives `VF = 1`); the flag is written after the result,
so the `VF` conclusion holds even when `X = 0xF`. -/
theorem reg_subn_spec (s : Chip8) (X Y : Nat)
    (hx : (s.opcode &&& 0x0F00) >>> 8 = X)
    (hy : (s.opcode &&& 0x00F0) >>> 4 = Y)
    (hcode : s.opcode &&& 0x000F = 0x7)
    (ha : s.V X < 256) (hb : s.V Y < 256) :
    ∃ t, x8 s = .ok t ∧
      t.V 0xF = (if s.V Y ≥ s.V X then 1 else 0) ∧
      (s.V X = s.V Y → t.V 0xF = 1) ∧
      (X ≠ 0xF → t.V X = (s.V Y + 256 - s.V X) % 256) ∧
      (∀ j, j ≠ X → j ≠ 0xF → t.V j = s.V j) := by
  have h8 : x8 s = .ok (setV (setV s X (s.V Y + 256 - s.V X)) 0xF
      (if s.V X > s.V Y then 0x0 else 0x1)) := by
    simp [x8, hx, hy, hcode]
  have hflag : (setV (setV s X (s.V Y + 256 - s.V X)) 0xF
      (if s.V X > s.V Y then 0x0 else 0x1)).V 0xF
      = (if s.V Y ≥ s.V X then 1 else 0) := by
    rw [setV_V, if_pos rfl]
    rcases Nat.lt_or_ge (s.V Y) (s.V X) with h | h
    · rw [if_pos h, if_neg (by omega)]
    · rw [if_neg (by omega), if_pos h]
  refine ⟨_, h8, hflag, ?_, ?_, ?_⟩
  · intro he
    rw [hflag, if_pos (by omega)]
  · intro hXF
    rw [setV_V, if_neg (by omega), setV_V, if_pos rfl]
  · intro j hjX hjF
    rw [setV_V, if_neg (by omega), setV_V, if_neg (by omega)]

/-- Claim C10 witness: `V1 = V2 = 5` gives result 0 and `VF = 1` (no
borrow on equality). -/
theorem reg_subn_spec_witness :
    ∃ t, x8 subnWit = .ok t ∧
      t.V 0xF = (if subnWit.V 2 ≥ subnWit.V 1 then 1 else 0) ∧
      (subnWit.V 1 = subnWit.V 2 → t.V 0xF = 1) ∧
      ((1 : Nat) ≠ 0xF → t.V 1 = (subnWit.V 2 + 256 - subnWit.V 1) % 256) ∧
      (∀ j, j ≠ 1 → j ≠ 0xF → t.V j = subnWit.V j) :=
  reg_subn_spec subnWit 1 2 (by decide) (by decide) (by decide)
    (by decide) (by decide)

theorem push_ok (s : Chip8) (h : s.sp ≤ 15) :
    push s = .ok { s with
      stack := Function.update s.stack s.sp (s.pc % 65536),
      sp := s.sp + 1 } := by
  unfold push
  rw [if_neg (by simp [CHIP8_STACK_SIZE]; omega)]
  have : (s.sp + 1) % 256 = s.sp + 1 := Nat.mod_eq_of_lt (by omega)
  rw [this]

theorem push_overflow (s : Chip8) (h : 16 ≤ s.sp) :
    push s = .error .stackOverflow := by
  unfold push
  rw [if_pos (by simp [CHIP8_STACK_SIZE]; omega)]

theorem x2_ok (s : Chip8) (h : s.sp ≤ 15) :
    x2 s = .ok { s with
      stack := Function.update s.stack s.sp (s.pc % 65536),
      sp := s.sp + 1,
      pc := (s.opcode &&& 0x0FFF) % 65536 } := by
  unfold x2
  rw [push_ok s h, okBind]
  rfl

theorem x2_overflow (s : Chip8) (h : 16 ≤ s.sp) :
    x2 s = .error .stackOverflow := by
  unfold x2
  rw [push_overflow s h, errBind]

theorem x2_ok_fields (s : Chip8) (h : s.sp ≤ 15) :
    ∃ u, x2 s = .ok u ∧ u.sp = s.sp + 1 ∧ u.opcode = s.opcode ∧
      u.pc = (s.opcode &&& 0x0FFF) % 65536 ∧
      u.stack = Function.update s.stack s.sp (s.pc % 65536) ∧
      u.index = s.index ∧ u.V = s.V ∧ u.memory = s.memory ∧
      u.display = s.display ∧ u.delay = s.delay ∧ u.sound = s.sound ∧
      u.keypad = s.keypad :=
  ⟨_, x2_ok s h, rfl, rfl, rfl, rfl, rfl, rfl, rfl, rfl, rfl, rfl, rfl⟩

/-- Full description of `n ≤ 16 - sp` nested calls: they all succeed, the
first return address pushed is the current `pc`, every later one is the call
target `NNN` itself, and entries below `sp` are untouched. -/
theorem callChain_spec (n : Nat) : ∀ s : Chip8, s.sp + n ≤ 16 →
    ∃ t, callChain n s = .ok t ∧ t.sp = s.sp + n ∧ t.opcode = s.opcode ∧
      (n = 0 → t = s) ∧
      (0 < n → t.pc = (s.opcode &&& 0x0FFF) % 65536) ∧
      (0 < n → t.stack s.sp = s.pc % 65536) ∧
      (∀ i, s.sp < i → i < s.sp + n → t.stack i = (s.opcode &&& 0x0FFF) % 65536) ∧
      (∀ i, i < s.sp → t.stack i = s.stack i) := by
  induction n with
  | zero =>
    intro s _
    exact ⟨s, rfl, by omega, rfl, fun _ => rfl, by omega, by omega,
      fun i h1 h2 => absurd h2 (by omega), fun _ _ => rfl⟩
  | succ n ih =>
    intro s hn
    obtain ⟨t, hrun, hsp, hop, hzero, hpc, hst0, hmid, hlow⟩ := ih s (by omega)
    have hsp15 : t.sp ≤ 15 := by omega
    obtain ⟨u, hx2, usp, uop, upc, ust, _, _, _, _, _, _, _⟩ := x2_ok_fields t hsp15
    have hrun1 : callChain (n + 1) s = .ok u := by
      show (callChain n s >>= x2) = .ok u
      rw [hrun, okBind, hx2]
    refine ⟨u, hrun1, by omega, by rw [uop, hop], by omega, ?_, ?_, ?_, ?_⟩
    · intro _
      rw [upc, hop]
    · intro _
      rw [ust, Function.update_apply]
      rcases Nat.eq_zero_or_pos n with h0 | h0
      · rw [if_pos (by omega), hzero h0]
      · rw [if_neg (by omega)]
        exact hst0 h0
    · intro i h1 h2
      rw [ust, Function.update_apply]
      rcases Nat.lt_or_ge i (s.sp + n) with hin | hin
      · rw [if_neg (by omega)]
        exact hmid i h1 hin
      · have hn0 : 0 < n := by omega
        rw [if_pos (by omega), hpc hn0]
        omega
    · intro i hi
      rw [ust, Function.update_apply, if_neg (by omega)]
      exact hlow i hi

/-- Claim C5: from an empty stack, 16 nested calls all succeed — the first
pushes the caller's `pc`, each later one pushes the call target as its return
address — a 17th call faults with `StackOverflow`, and executing return
(`00EE`) with `sp = 0` is a no-op whose `pop` leaves `pc` unchanged. -/
theorem stack_discipline (s : Chip8) (h : s.sp = 0) :
    (∃ t, callChain 16 s = .ok t ∧ t.sp = 16 ∧ t.stack 0 = s.pc % 65536 ∧
      ∀ i, 1 ≤ i → i < 16 → t.stack i = (s.opcode &&& 0x0FFF) % 65536) ∧
    callChain 17 s = .error .stackOverflow ∧
    (∀ u : Chip8, u.sp = 0 → u.opcode = 0x00EE →
      pop u = u ∧ x0 u = .ok u) := by
  obtain ⟨t, hrun, hsp, hop, _, _, hst0, hmid, _⟩ := callChain_spec 16 s (by omega)
  refine ⟨⟨t, hrun, by omega, ?_, ?_⟩, ?_, ?_⟩
  · rw [← h]
    exact hst0 (by omega)
  · intro i h1 h2
    exact hmid i (by omega) (by omega)
  · show (callChain 16 s >>= x2) = _
    rw [hrun, okBind, x2_overflow t (by omega)]
  · intro u hu hop
    have hpop : pop u = u := by unfold pop; rw [if_pos hu]
    refine ⟨hpop, ?_⟩
    unfold x0
    rw [if_neg (by omega), if_pos hop, hpop]

/-- Machine with an empty stack about to run nested `2345` calls. -/
def callWit : Chip8 := { baseState with opcode := 0x2345 }

/-- Claim C5 witness: the concrete empty-stack machine `callWit`. -/
theorem stack_discipline_witness :
    (∃ t, callChain 16 callWit = .ok t ∧ t.sp = 16 ∧
      t.stack 0 = callWit.pc % 65536 ∧
      ∀ i, 1 ≤ i → i < 16 → t.stack i = (callWit.opcode &&& 0x0FFF) % 65536) ∧
    callChain 17 callWit = .error .stackOverflow ∧
    (∀ u : Chip8, u.sp = 0 → u.opcode = 0x00EE →
      pop u = u ∧ x0 u = .ok u) :=
  stack_discipline callWit rfl

/-- Claim C8: executing `call NNN` (`x2`) and then the return instruction
(the machine refetches, loading `00EE`; `x0` delegates to `pop`) restores
`pc` to its value right after the call's fetch and rebalances `sp`. -/
theorem call_return_roundtrip (s : Chip8) (hsp : s.sp ≤ 15) (hpc : s.pc < 65536) :
    ∃ t u, x2 s = .ok t ∧ t.pc = (s.opcode &&& 0x0FFF) % 65536 ∧
      x0 { t with opcode := 0x00EE, pc := (t.pc + 2) % 65536 } = .ok u ∧
      u.pc = s.pc ∧ u.sp = s.sp := by
  obtain ⟨t, hx2, usp, uop, upc, ust, _⟩ := x2_ok_fields s hsp
  set t2 : Chip8 := { t with opcode := 0x00EE, pc := (t.pc + 2) % 65536 } with ht2
  have h2sp : t2.sp = s.sp + 1 := usp
  have hx0 : x0 t2 = .ok (pop t2) := by
    unfold x0
    rw [if_neg (by simp [ht2]), if_pos (by simp [ht2])]
  have hpop : (pop t2).pc = s.pc ∧ (pop t2).sp = s.sp := by
    unfold pop
    rw [if_neg (by omega)]
    constructor
    · show (t2.stack (t2.sp - 1)) % 65536 = s.pc
      have hs : t2.stack = t.stack := rfl
      rw [hs, ust, h2sp, Nat.add_sub_cancel, Function.update_apply, if_pos rfl]
      omega
    · show t2.sp - 1 = s.sp
      omega
  exact ⟨t, pop t2, hx2, upc, hx0, hpop.1, hpop.2⟩

/-- Claim C8 witness: the concrete machine `callWit` (`sp = 0`, `pc = 0x200`). -/
theorem call_return_roundtrip_witness :
    ∃ t u, x2 callWit = .ok t ∧ t.pc = (callWit.opcode &&& 0x0FFF) % 65536 ∧
      x0 { t with opcode := 0x00EE, pc := (t.pc + 2) % 65536 } = .ok u ∧
      u.pc = callWit.pc ∧ u.sp = callWit.sp :=
  call_return_roundtrip callWit (by decide) (by decide)

theorem copyROM_frame : ∀ (rom : List Nat) (s : Chip8) (a : Nat),
    (copyROM s rom a).opcode = s.opcode ∧ (copyROM s rom a).index = s.index ∧
    (copyROM s rom a).pc = s.pc ∧ (copyROM s rom a).stack = s.stack ∧
    (copyROM s rom a).sound = s.sound ∧ (copyROM s rom a).delay = s.delay ∧
    (copyROM s rom a).sp = s.sp ∧ (copyROM s rom a).V = s.V ∧
    (copyROM s rom a).keypad = s.keypad ∧ (copyROM s rom a).display = s.display := by
  intro rom
  induction rom with
  | nil => intro s a; exact ⟨rfl, rfl, rfl, rfl, rfl, rfl, rfl, rfl, rfl, rfl⟩
  | cons b rest ih => intro s a; exact ih _ (a + 1)

theorem copyROM_memory : ∀ (rom : List Nat) (s : Chip8) (a : Nat),
    (∀ i (h : i < rom.length),
      (copyROM s rom a).memory (a + i) = rom.get ⟨i, h⟩ % 256) ∧
    (∀ addr, addr < a ∨ a + rom.length ≤ addr →
      (copyROM s rom a).memory addr = s.memory addr) := by
  intro rom
  induction rom with
  | nil =>
    intro s a
    refine ⟨fun i h => absurd h (by simp), fun addr _ => rfl⟩
  | cons b rest ih =>
    intro s a
    constructor
    · intro i hi
      match i with
      | 0 =>
        show (copyROM _ rest (a + 1)).memory (a + 0) = b % 256
        rw [(ih _ (a + 1)).2 (a + 0) (by omega)]
        show Function.update s.memory a (b % 256) (a + 0) = b % 256
        rw [Function.update_apply, if_pos (by omega)]
      | Nat.succ j =>
        have hj : j < rest.length := by simpa using hi
        have := (ih { s with memory := Function.update s.memory a (b % 256) }
          (a + 1)).1 j hj
        show (copyROM _ rest (a + 1)).memory (a + (j + 1)) = _
        rw [show a + (j + 1) = (a + 1) + j by omega, this]
        rfl
    · intro addr haddr
      simp only [List.length_cons] at haddr
      show (copyROM _ rest (a + 1)).memory addr = s.memory addr
      have haddr2 : addr < a + 1 ∨ (a + 1) + rest.length ≤ addr := by omega
      rw [(ih _ (a + 1)).2 addr haddr2]
      show Function.update s.memory a (b % 256) addr = s.memory addr
      rw [Function.update_apply, if_neg (by omega)]

/-- Claim C7: an image longer than `CHIP8_MEMORY_SIZE - 512` is rejected
before any write (the machine is returned untouched); any image within the
bound is copied verbatim to `memory[0x200..]`, all other addresses and all
other fields are untouched, and the load reports success. -/
theorem load_ROM_spec (s : Chip8) (rom : List Nat) (hbytes : ∀ b ∈ rom, b < 256) :
    (rom.length > CHIP8_MEMORY_SIZE - 512 → chip8_load_ROM s rom = (false, s)) ∧
    (rom.length ≤ CHIP8_MEMORY_SIZE - 512 →
      (chip8_load_ROM s rom).1 = true ∧
      (∀ i (h : i < rom.length),
        (chip8_load_ROM s rom).2.memory (0x200 + i) = rom.get ⟨i, h⟩) ∧
      (∀ a, a < 0x200 ∨ 0x200 + rom.length ≤ a →
        (chip8_load_ROM s rom).2.memory a = s.memory a) ∧
      (chip8_load_ROM s rom).2.pc = s.pc ∧
      (chip8_load_ROM s rom).2.V = s.V ∧
      (chip8_load_ROM s rom).2.index = s.index ∧
      (chip8_load_ROM s rom).2.sp = s.sp ∧
      (chip8_load_ROM s rom).2.stack = s.stack ∧
      (chip8_load_ROM s rom).2.delay = s.delay ∧
      (chip8_load_ROM s rom).2.sound = s.sound ∧
      (chip8_load_ROM s rom).2.display = s.display) := by
  constructor
  · intro hlong
    unfold chip8_load_ROM
    rw [if_pos (by simpa [CHIP8_MEMORY_SIZE] using hlong)]
  · intro hfit
    have hload : chip8_load_ROM s rom = (true, copyROM s rom 0x200) := by
      unfold chip8_load_ROM
      rw [if_neg (by simp only [CHIP8_MEMORY_SIZE] at hfit ⊢; omega)]
    rw [hload]
    obtain ⟨hcopy, hout⟩ := copyROM_memory rom s 0x200
    obtain ⟨_, hidx, hpc, hstk, hsnd, hdly, hsp, hV, _, hdsp⟩ :=
      copyROM_frame rom s 0x200
    refine ⟨rfl, ?_, hout, hpc, hV, hidx, hsp, hstk, hdly, hsnd, hdsp⟩
    intro i hi
    rw [hcopy i hi, Nat.mod_eq_of_lt (hbytes _ (rom.get_mem _ _))]

/-- Claim C7 witness: loading the three-byte image `[1, 2, 3]`. -/
theorem load_ROM_spec_witness :
    (([1, 2, 3] : List Nat).length > CHIP8_MEMORY_SIZE - 512 →
      chip8_load_ROM baseState [1, 2, 3] = (false, baseState)) ∧
    (([1, 2, 3] : List Nat).length ≤ CHIP8_MEMORY_SIZE - 512 →
      (chip8_load_ROM baseState [1, 2, 3]).1 = true ∧
      (∀ i (h : i < ([1, 2, 3] : List Nat).length),
        (chip8_load_ROM baseState [1, 2, 3]).2.memory (0x200 + i) =
          ([1, 2, 3] : List Nat).get ⟨i, h⟩) ∧
      (∀ a, a < 0x200 ∨ 0x200 + ([1, 2, 3] : List Nat).length ≤ a →
        (chip8_load_ROM baseState [1, 2, 3]).2.memory a = baseState.memory a) ∧
      (chip8_load_ROM baseState [1, 2, 3]).2.pc = baseState.pc ∧
      (chip8_load_ROM baseState [1, 2, 3]).2.V = baseState.V ∧
      (chip8_load_ROM baseState [1, 2, 3]).2.index = baseState.index ∧
      (chip8_load_ROM baseState [1, 2, 3]).2.sp = baseState.sp ∧
      (chip8_load_ROM baseState [1, 2, 3]).2.stack = baseState.stack ∧
      (chip8_load_ROM baseState [1, 2, 3]).2.delay = baseState.delay ∧
      (chip8_load_ROM baseState [1, 2, 3]).2.sound = baseState.sound ∧
      (chip8_load_ROM baseState [1, 2, 3]).2.display = baseState.display) :=
  load_ROM_spec baseState [1, 2, 3] (by decide)

theorem memWrite_ok (s : Chip8) (a v : Nat) (h : a < 4096) :
    memWrite s a v = .ok { s with memory := Function.update s.memory a (v % 256) } := by
  unfold memWrite
  rw [if_pos h]

theorem memRead_ok (s : Chip8) (a : Nat) (h : a < 4096) :
    memRead s a = .ok (s.memory a) := by
  unfold memRead
  rw [if_pos h]

theorem drawPixel_frame (s : Chip8) (p : Bool) (i : Nat) :
    (drawPixel s p i).memory = s.memory ∧ (drawPixel s p i).index = s.index ∧
    (drawPixel s p i).opcode = s.opcode ∧ (drawPixel s p i).pc = s.pc ∧
    (drawPixel s p i).sp = s.sp ∧ (drawPixel s p i).stack = s.stack ∧
    (drawPixel s p i).delay = s.delay ∧ (drawPixel s p i).sound = s.sound ∧
    (drawPixel s p i).keypad = s.keypad ∧
    (∀ j, j ≠ 0xF → (drawPixel s p i).V j = s.V j) := by
  unfold drawPixel
  split
  · exact ⟨rfl, rfl, rfl, rfl, rfl, rfl, rfl, rfl, rfl,
      fun j hj => by simp [Function.update_apply, hj]⟩
  split
  · exact ⟨rfl, rfl, rfl, rfl, rfl, rfl, rfl, rfl, rfl, fun j _ => rfl⟩
  · exact ⟨rfl, rfl, rfl, rfl, rfl, rfl, rfl, rfl, rfl, fun j _ => rfl⟩

theorem drawCols_frame (X Yr byte : Nat) : ∀ (fuel col : Nat) (s : Chip8),
    (drawCols X Yr byte fuel col s).memory = s.memory ∧
    (drawCols X Yr byte fuel col s).index = s.index ∧
    (drawCols X Yr byte fuel col s).opcode = s.opcode ∧
    (drawCols X Yr byte fuel col s).pc = s.pc ∧
    (drawCols X Yr byte fuel col s).sp = s.sp ∧
    (drawCols X Yr byte fuel col s).stack = s.stack ∧
    (drawCols X Yr byte fuel col s).delay = s.delay ∧
    (drawCols X Yr byte fuel col s).sound = s.sound ∧
    (drawCols X Yr byte fuel col s).keypad = s.keypad ∧
    (∀ j, j ≠ 0xF → (drawCols X Yr byte fuel col s).V j = s.V j) := by
  intro fuel
  induction fuel with
  | zero => exact fun col s => ⟨rfl, rfl, rfl, rfl, rfl, rfl, rfl, rfl, rfl, fun _ _ => rfl⟩
  | succ fuel ih =>
    intro col s
    have hunf : drawCols X Yr byte (fuel + 1) col s =
        if X + col > 63 then s
        else drawCols X Yr byte fuel (col + 1)
          (drawPixel s (spriteBit byte col) ((X + col) + Yr * 64)) := rfl
    rw [hunf]
    split
    · exact ⟨rfl, rfl, rfl, rfl, rfl, rfl, rfl, rfl, rfl, fun _ _ => rfl⟩
    · obtain ⟨m1, i1, o1, p1, s1, t1, d1, n1, k1, v1⟩ :=
        ih (col + 1) (drawPixel s (spriteBit byte col) ((X + col) + Yr * 64))
      obtain ⟨m2, i2, o2, p2, s2, t2, d2, n2, k2, v2⟩ :=
        drawPixel_frame s (spriteBit byte col) ((X + col) + Yr * 64)
      exact ⟨m1.trans m2, i1.trans i2, o1.trans o2, p1.trans p2, s1.trans s2,
        t1.trans t2, d1.trans d2, n1.trans n2, k1.trans k2,
        fun j hj => (v1 j hj).trans (v2 j hj)⟩

theorem drawRows_frame (X Y : Nat) : ∀ (fuel row : Nat) (s t : Chip8),
    drawRows X Y fuel row s = .ok t →
    t.memory = s.memory ∧ t.index = s.index ∧ t.opcode = s.opcode ∧
    t.pc = s.pc ∧ t.sp = s.sp ∧ t.stack = s.stack ∧ t.delay = s.delay ∧
    t.sound = s.sound ∧ t.keypad = s.keypad ∧
    (∀ j, j ≠ 0xF → t.V j = s.V j) := by
  intro fuel
  induction fuel with
  | zero =>
    intro row s t h
    cases h
    exact ⟨rfl, rfl, rfl, rfl, rfl, rfl, rfl, rfl, rfl, fun _ _ => rfl⟩
  | succ fuel ih =>
    intro row s t h
    rw [show drawRows X Y (fuel + 1) row s = (memRead s (s.index + row) >>=
      fun pixelByte => if Y + row > 31 then .ok s
        else drawRows X Y fuel (row + 1) (drawCols X (Y + row) pixelByte 8 0 s))
      from rfl] at h
    rcases hmr : memRead s (s.index + row) with e | byte
    · rw [hmr, errBind] at h; cases h
    · rw [hmr, okBind] at h
      by_cases hy : Y + row > 31
      · rw [if_pos hy] at h
        cases h
        exact ⟨rfl, rfl, rfl, rfl, rfl, rfl, rfl, rfl, rfl, fun _ _ => rfl⟩
      · rw [if_neg hy] at h
        obtain ⟨m1, i1, o1, p1, s1, t1, d1, n1, k1, v1⟩ := ih (row + 1) _ t h
        obtain ⟨m2, i2, o2, p2, s2, t2, d2, n2, k2, v2⟩ :=
          drawCols_frame X (Y + row) byte 8 0 s
        exact ⟨m1.trans m2, i1.trans i2, o1.trans o2, p1.trans p2, s1.trans s2,
          t1.trans t2, d1.trans d2, n1.trans n2, k1.trans k2,
          fun j hj => (v1 j hj).trans (v2 j hj)⟩

theorem drawRows_ok (X Y : Nat) : ∀ (fuel row : Nat) (s : Chip8),
    (∀ r, r < fuel → s.index + (row + r) < 4096) →
    ∃ t, drawRows X Y fuel row s = .ok t := by
  intro fuel
  induction fuel with
  | zero => exact fun row s _ => ⟨s, rfl⟩
  | succ fuel ih =>
    intro row s hb
    rw [show drawRows X Y (fuel + 1) row s = (memRead s (s.index + row) >>=
      fun pixelByte => if Y + row > 31 then .ok s
        else drawRows X Y fuel (row + 1) (drawCols X (Y + row) pixelByte 8 0 s))
      from rfl]
    rw [memRead_ok s _ (by have := hb 0 (by omega); omega), okBind]
    by_cases hy : Y + row > 31
    · rw [if_pos hy]; exact ⟨s, rfl⟩
    · rw [if_neg hy]
      refine ih (row + 1) _ (fun r hr => ?_)
      rw [(drawCols_frame X (Y + row) (s.memory (s.index + row)) 8 0 s).2.1]
      have := hb (r + 1) (by omega)
      omega

theorem xD_ok (s : Chip8) (h : s.index + 15 < 4096) :
    ∃ t, xD s = .ok t := by
  unfold xD
  refine drawRows_ok _ _ _ 0 _ (fun r hr => ?_)
  have hN : s.opcode &&& 0x000F ≤ 15 := Nat.and_le_right
  show s.index + (0 + r) < 4096
  omega


theorem storeRegsLoop_ok (ii : Nat) : ∀ (fuel i : Nat) (s : Chip8),
    (∀ k, k < fuel → ii + (i + k) < 4096) →
    ∃ t, storeRegsLoop ii fuel i s = .ok t := by
  intro fuel
  induction fuel with
  | zero => exact fun i s _ => ⟨s, rfl⟩
  | succ fuel ih =>
    intro i s hb
    have hunf : storeRegsLoop ii (fuel + 1) i s = (memWrite s (ii + i) (s.V i) >>=
        fun t => storeRegsLoop ii fuel (i + 1) t) := rfl
    rw [hunf, memWrite_ok s (ii + i) (s.V i) (by have := hb 0 (by omega); omega), okBind]
    exact ih (i + 1) _ (fun k hk => by have := hb (k + 1) (by omega); omega)

theorem loadRegsLoop_ok (ii : Nat) : ∀ (fuel i : Nat) (s : Chip8),
    (∀ k, k < fuel → ii + (i + k) < 4096) →
    ∃ t, loadRegsLoop ii fuel i s = .ok t := by
  intro fuel
  induction fuel with
  | zero => exact fun i s _ => ⟨s, rfl⟩
  | succ fuel ih =>
    intro i s hb
    have hunf : loadRegsLoop ii (fuel + 1) i s = (memRead s (ii + i) >>=
        fun b => loadRegsLoop ii fuel (i + 1) (setV s i b)) := rfl
    rw [hunf, memRead_ok s (ii + i) (by have := hb 0 (by omega); omega), okBind]
    exact ih (i + 1) _ (fun k hk => by have := hb (k + 1) (by omega); omega)

theorem memWrite_index (s : Chip8) (a v : Nat) (h : a < 4096) :
    ∃ t, memWrite s a v = .ok t ∧ t.index = s.index :=
  ⟨_, memWrite_ok s a v h, rfl⟩

theorem convert_bcd_ok (s : Chip8) (h : s.index + 2 < 4096) :
    ∃ t, convert_binary_to_decimal_and_load s = .ok t := by
  obtain ⟨t1, h1, hi1⟩ := memWrite_index s (s.index + 0)
    (s.V ((s.opcode &&& 0x0F00) >>> 8) / 100 % 10) (by omega)
  obtain ⟨t2, h2, hi2⟩ := memWrite_index t1 (t1.index + 1)
    (s.V ((s.opcode &&& 0x0F00) >>> 8) / 10 % 10) (by rw [hi1]; omega)
  obtain ⟨t3, h3, _⟩ := memWrite_index t2 (t2.index + 2)
    (s.V ((s.opcode &&& 0x0F00) >>> 8) % 10) (by rw [hi2, hi1]; omega)
  refine ⟨t3, ?_⟩
  show (memWrite s (s.index + 0) (s.V ((s.opcode &&& 0x0F00) >>> 8) / 100 % 10) >>=
    fun s1 => memWrite s1 (s1.index + 1) (s.V ((s.opcode &&& 0x0F00) >>> 8) / 10 % 10) >>=
    fun s2 => memWrite s2 (s2.index + 2) (s.V ((s.opcode &&& 0x0F00) >>> 8) % 10) >>=
    fun s3 => Except.ok s3) = .ok t3
  rw [h1, okBind, h2, okBind, h3, okBind]

/-- Claim C2 counterexample: with `index = 0xFFF`, the store-BCD instruction
`F033` writes its second digit at address `0x1000`, an out-of-bounds access
into the 4096-byte memory array — the access faults instead of wrapping or
saturating. -/
theorem store_bcd_oob_fault :
    cexBCD.index = 0xFFF ∧ xF cexBCD = .error (.outOfBounds 0x1000) :=
  ⟨rfl, rfl⟩

/-- Claim C2, amended: the memory-indexing instructions cannot fault as long
as every address they compute stays inside `0x000`–`0xFFF` (here guaranteed
by `index + 15 < 4096`, since each of draw, store-BCD, store-registers and
load-registers reaches at most `index + 15`); an address beyond `0xFFF` is an
out-of-bounds array access (a fault in this embedding), not a wrap or
saturation. -/
theorem mem_access_in_bounds_ok (s : Chip8) (h : s.index + 15 < 4096) :
    (okB (xD s) = true) ∧
    (s.opcode &&& 0x00FF = 0x33 → okB (xF s) = true) ∧
    (s.opcode &&& 0x00FF = 0x55 → okB (xF s) = true) ∧
    (s.opcode &&& 0x00FF = 0x65 → okB (xF s) = true) := by
  have hX : (s.opcode &&& 0x0F00) >>> 8 ≤ 15 := by
    have h1 : s.opcode &&& 0x0F00 ≤ 0x0F00 := Nat.and_le_right
    calc (s.opcode &&& 0x0F00) >>> 8 = (s.opcode &&& 0x0F00) / 256 := by
          rw [Nat.shiftRight_eq_div_pow]
      _ ≤ 0x0F00 / 256 := Nat.div_le_div_right h1
      _ = 15 := by norm_num
  refine ⟨?_, ?_, ?_, ?_⟩
  · obtain ⟨t, ht⟩ := xD_ok s h
    rw [ht]
    rfl
  · intro hc
    have : xF s = convert_binary_to_decimal_and_load s := by
      unfold xF
      repeat rw [if_neg (by omega)]
      rw [if_pos hc]
    obtain ⟨t, ht⟩ := convert_bcd_ok s (by omega)
    rw [this, ht]
    rfl
  · intro hc
    have : xF s = storeRegsLoop s.index (((s.opcode &&& 0x0F00) >>> 8) + 1) 0 s := by
      unfold xF
      repeat rw [if_neg (by omega)]
      rw [if_pos hc]
    obtain ⟨t, ht⟩ := storeRegsLoop_ok s.index (((s.opcode &&& 0x0F00) >>> 8) + 1) 0 s
      (fun k hk => by omega)
    rw [this, ht]
    rfl
  · intro hc
    have : xF s = loadRegsLoop s.index (((s.opcode &&& 0x0F00) >>> 8) + 1) 0 s := by
      unfold xF
      repeat rw [if_neg (by omega)]
      rw [if_pos hc]
    obtain ⟨t, ht⟩ := loadRegsLoop_ok s.index (((s.opcode &&& 0x0F00) >>> 8) + 1) 0 s
      (fun k hk => by omega)
    rw [this, ht]
    rfl

/-- Machine with `index = 0xE00` about to execute `F533` (store-BCD). -/
def inBoundsWit : Chip8 :=
  { baseState with opcode := 0xF533, index := 0xE00 }

/-- Claim C2 witness: with `index = 0xE00` every access is in bounds, so
draw and the `F?33/F?55/F?65` instructions all succeed. -/
theorem mem_access_in_bounds_ok_witness :
    (okB (xD inBoundsWit) = true) ∧
    (inBoundsWit.opcode &&& 0x00FF = 0x33 → okB (xF inBoundsWit) = true) ∧
    (inBoundsWit.opcode &&& 0x00FF = 0x55 → okB (xF inBoundsWit) = true) ∧
    (inBoundsWit.opcode &&& 0x00FF = 0x65 → okB (xF inBoundsWit) = true) :=
  mem_access_in_bounds_ok inBoundsWit (by decide)

theorem memWrite_frame (s : Chip8) (a v : Nat) (u : Chip8) (h : memWrite s a v = .ok u) :
    u.opcode = s.opcode ∧ u.index = s.index ∧ u.pc = s.pc ∧ u.stack = s.stack ∧
    u.sound = s.sound ∧ u.delay = s.delay ∧ u.sp = s.sp ∧ u.V = s.V ∧
    u.keypad = s.keypad ∧ u.display = s.display := by
  unfold memWrite at h
  split at h
  · cases h
    exact ⟨rfl, rfl, rfl, rfl, rfl, rfl, rfl, rfl, rfl, rfl⟩
  · exact Except.noConfusion h

theorem pop_timers (s : Chip8) : (pop s).delay = s.delay ∧ (pop s).sound = s.sound := by
  unfold pop jump
  split <;> exact ⟨rfl, rfl⟩

theorem storeRegsLoop_timers (ii : Nat) : ∀ (fuel i : Nat) (s t : Chip8),
    storeRegsLoop ii fuel i s = .ok t → t.delay = s.delay ∧ t.sound = s.sound := by
  intro fuel
  induction fuel with
  | zero => intro i s t h; cases h; exact ⟨rfl, rfl⟩
  | succ fuel ih =>
    intro i s t h
    rw [show storeRegsLoop ii (fuel + 1) i s = (memWrite s (ii + i) (s.V i) >>=
      fun u => storeRegsLoop ii fuel (i + 1) u) from rfl] at h
    rcases hmw : memWrite s (ii + i) (s.V i) with e | u
    · rw [hmw, errBind] at h; exact Except.noConfusion h
    · rw [hmw, okBind] at h
      obtain ⟨hd, hn⟩ := ih (i + 1) u t h
      obtain ⟨_, _, _, _, un, ud, _⟩ := memWrite_frame s (ii + i) (s.V i) u hmw
      exact ⟨hd.trans ud, hn.trans un⟩

theorem loadRegsLoop_timers (ii : Nat) : ∀ (fuel i : Nat) (s t : Chip8),
    loadRegsLoop ii fuel i s = .ok t → t.delay = s.delay ∧ t.sound = s.sound := by
  intro fuel
  induction fuel with
  | zero => intro i s t h; cases h; exact ⟨rfl, rfl⟩
  | succ fuel ih =>
    intro i s t h
    rw [show loadRegsLoop ii (fuel + 1) i s = (memRead s (ii + i) >>=
      fun b => loadRegsLoop ii fuel (i + 1) (setV s i b)) from rfl] at h
    rcases hmr : memRead s (ii + i) with e | b
    · rw [hmr, errBind] at h; exact Except.noConfusion h
    · rw [hmr, okBind] at h
      exact ih (i + 1) (setV s i b) t h

theorem convert_bcd_timers (s t : Chip8)
    (h : convert_binary_to_decimal_and_load s = .ok t) :
    t.delay = s.delay ∧ t.sound = s.sound := by
  rw [show convert_binary_to_decimal_and_load s =
    (memWrite s (s.index + 0) (s.V ((s.opcode &&& 0x0F00) >>> 8) / 100 % 10) >>=
    fun s1 => memWrite s1 (s1.index + 1) (s.V ((s.opcode &&& 0x0F00) >>> 8) / 10 % 10) >>=
    fun s2 => memWrite s2 (s2.index + 2) (s.V ((s.opcode &&& 0x0F00) >>> 8) % 10) >>=
    fun s3 => Except.ok s3) from rfl] at h
  rcases h1 : memWrite s (s.index + 0) (s.V ((s.opcode &&& 0x0F00) >>> 8) / 100 % 10)
    with e | u1
  · rw [h1, errBind] at h; exact Except.noConfusion h
  rw [h1, okBind] at h
  rcases h2 : memWrite u1 (u1.index + 1) (s.V ((s.opcode &&& 0x0F00) >>> 8) / 10 % 10)
    with e | u2
  · rw [h2, errBind] at h; exact Except.noConfusion h
  rw [h2, okBind] at h
  rcases h3 : memWrite u2 (u2.index + 2) (s.V ((s.opcode &&& 0x0F00) >>> 8) % 10)
    with e | u3
  · rw [h3, errBind] at h; exact Except.noConfusion h
  rw [h3, okBind] at h
  cases h
  obtain ⟨_, _, _, _, n1, d1, _⟩ := memWrite_frame _ _ _ _ h1
  obtain ⟨_, _, _, _, n2, d2, _⟩ := memWrite_frame _ _ _ _ h2
  obtain ⟨_, _, _, _, n3, d3, _⟩ := memWrite_frame _ _ _ _ h3
  exact ⟨(d3.trans d2).trans d1, (n3.trans n2).trans n1⟩

theorem x0_timers (s t : Chip8) (h : x0 s = .ok t) :
    t.delay = s.delay ∧ t.sound = s.sound := by
  simp only [x0] at h
  split at h
  · cases h; exact ⟨rfl, rfl⟩
  split at h
  · cases h; exact pop_timers s
  · exact Except.noConfusion h

theorem x1_timers (s t : Chip8) (h : x1 s = .ok t) :
    t.delay = s.delay ∧ t.sound = s.sound := by
  cases h; exact ⟨rfl, rfl⟩

theorem x2_timers (s t : Chip8) (h : x2 s = .ok t) :
    t.delay = s.delay ∧ t.sound = s.sound := by
  rw [show x2 s = (push s >>= fun u => .ok (jump u (u.opcode &&& 0x0FFF)))
    from rfl] at h
  unfold push at h
  split at h
  · rw [errBind] at h; exact Except.noConfusion h
  · rw [okBind] at h; cases h; exact ⟨rfl, rfl⟩

theorem x3_timers (s t : Chip8) (h : x3 s = .ok t) :
    t.delay = s.delay ∧ t.sound = s.sound := by
  simp only [x3] at h
  split at h <;> (cases h; exact ⟨rfl, rfl⟩)

theorem x4_timers (s t : Chip8) (h : x4 s = .ok t) :
    t.delay = s.delay ∧ t.sound = s.sound := by
  simp only [x4] at h
  split at h <;> (cases h; exact ⟨rfl, rfl⟩)

theorem x5_timers (s t : Chip8) (h : x5 s = .ok t) :
    t.delay = s.delay ∧ t.sound = s.sound := by
  simp only [x5] at h
  split at h <;> (cases h; exact ⟨rfl, rfl⟩)

theorem x6_timers (s t : Chip8) (h : x6 s = .ok t) :
    t.delay = s.delay ∧ t.sound = s.sound := by
  cases h; exact ⟨rfl, rfl⟩

theorem x7_timers (s t : Chip8) (h : x7 s = .ok t) :
    t.delay = s.delay ∧ t.sound = s.sound := by
  cases h; exact ⟨rfl, rfl⟩

theorem x8_timers (s t : Chip8) (h : x8 s = .ok t) :
    t.delay = s.delay ∧ t.sound = s.sound := by
  simp only [x8] at h
  split at h
  · cases h; exact ⟨rfl, rfl⟩
  split at h
  · cases h; exact ⟨rfl, rfl⟩
  split at h
  · cases h; exact ⟨rfl, rfl⟩
  split at h
  · cases h; exact ⟨rfl, rfl⟩
  split at h
  · cases h; exact ⟨rfl, rfl⟩
  split at h
  · cases h; exact ⟨rfl, rfl⟩
  split at h
  · cases h; exact ⟨rfl, rfl⟩
  split at h
  · cases h; exact ⟨rfl, rfl⟩
  split at h
  · cases h; exact ⟨rfl, rfl⟩
  · exact Except.noConfusion h

theorem x9_timers (s t : Chip8) (h : x9 s = .ok t) :
    t.delay = s.delay ∧ t.sound = s.sound := by
  simp only [x9] at h
  split at h <;> (cases h; exact ⟨rfl, rfl⟩)

theorem xA_timers (s t : Chip8) (h : xA s = .ok t) :
    t.delay = s.delay ∧ t.sound = s.sound := by
  cases h; exact ⟨rfl, rfl⟩

theorem xB_timers (s t : Chip8) (h : xB s = .ok t) :
    t.delay = s.delay ∧ t.sound = s.sound := by
  cases h; exact ⟨rfl, rfl⟩

theorem xC_timers (s : Chip8) (r : Nat) (t : Chip8) (h : xC s r = .ok t) :
    t.delay = s.delay ∧ t.sound = s.sound := by
  cases h; exact ⟨rfl, rfl⟩

theorem xD_timers (s t : Chip8) (h : xD s = .ok t) :
    t.delay = s.delay ∧ t.sound = s.sound := by
  unfold xD at h
  obtain ⟨_, _, _, _, _, _, hd, hn, _⟩ := drawRows_frame _ _ _ _ _ _ h
  exact ⟨hd, hn⟩

theorem xE_timers (s t : Chip8) (h : xE s = .ok t) :
    t.delay = s.delay ∧ t.sound = s.sound := by
  simp only [xE] at h
  split at h
  · split at h <;> (cases h; exact ⟨rfl, rfl⟩)
  split at h
  · split at h <;> (cases h; exact ⟨rfl, rfl⟩)
  · exact Except.noConfusion h

theorem xF_timers (s t : Chip8) (h : xF s = .ok t) :
    (s.opcode &&& 0x00FF ≠ 0x15 → t.delay = s.delay) ∧
    (s.opcode &&& 0x00FF ≠ 0x18 → t.sound = s.sound) := by
  simp only [xF] at h
  split at h
  · cases h; exact ⟨fun _ => rfl, fun _ => rfl⟩
  split at h
  · rcases hscan : scanKeys s.keypad 0x10 0 with _ | i <;> rw [hscan] at h <;>
      (cases h; exact ⟨fun _ => rfl, fun _ => rfl⟩)
  split at h
  · cases h; exact ⟨fun hne => by omega, fun _ => rfl⟩
  split at h
  · cases h; exact ⟨fun _ => rfl, fun hne => by omega⟩
  split at h
  · cases h; exact ⟨fun _ => rfl, fun _ => rfl⟩
  split at h
  · cases h; exact ⟨fun _ => rfl, fun _ => rfl⟩
  split at h
  · obtain ⟨hd, hn⟩ := convert_bcd_timers s t h
    exact ⟨fun _ => hd, fun _ => hn⟩
  split at h
  · obtain ⟨hd, hn⟩ := storeRegsLoop_timers _ _ _ _ _ h
    exact ⟨fun _ => hd, fun _ => hn⟩
  split at h
  · obtain ⟨hd, hn⟩ := loadRegsLoop_timers _ _ _ _ _ h
    exact ⟨fun _ => hd, fun _ => hn⟩
  · exact Except.noConfusion h

theorem execOp_timers (s : Chip8) (r : Nat) (t : Chip8) (h : execOp s r = .ok t) :
    (¬((s.opcode &&& 0xF000) >>> 12 = 0xF ∧ s.opcode &&& 0x00FF = 0x15) →
      t.delay = s.delay) ∧
    (¬((s.opcode &&& 0xF000) >>> 12 = 0xF ∧ s.opcode &&& 0x00FF = 0x18) →
      t.sound = s.sound) := by
  unfold execOp dispatch at h
  by_cases hc0 : (s.opcode &&& 0xF000) >>> 12 = 0
  · rw [if_pos hc0] at h
    obtain ⟨hd, hn⟩ := x0_timers s t h
    exact ⟨fun _ => hd, fun _ => hn⟩
  rw [if_neg hc0] at h
  by_cases hc1 : (s.opcode &&& 0xF000) >>> 12 = 1
  · rw [if_pos hc1] at h
    obtain ⟨hd, hn⟩ := x1_timers s t h
    exact ⟨fun _ => hd, fun _ => hn⟩
  rw [if_neg hc1] at h
  by_cases hc2 : (s.opcode &&& 0xF000) >>> 12 = 2
  · rw [if_pos hc2] at h
    obtain ⟨hd, hn⟩ := x2_timers s t h
    exact ⟨fun _ => hd, fun _ => hn⟩
  rw [if_neg hc2] at h
  by_cases hc3 : (s.opcode &&& 0xF000) >>> 12 = 3
  · rw [if_pos hc3] at h
    obtain ⟨hd, hn⟩ := x3_timers s t h
    exact ⟨fun _ => hd, fun _ => hn⟩
  rw [if_neg hc3] at h
  by_cases hc4 : (s.opcode &&& 0xF000) >>> 12 = 4
  · rw [if_pos hc4] at h
    obtain ⟨hd, hn⟩ := x4_timers s t h
    exact ⟨fun _ => hd, fun _ => hn⟩
  rw [if_neg hc4] at h
  by_cases hc5 : (s.opcode &&& 0xF000) >>> 12 = 5
  · rw [if_pos hc5] at h
    obtain ⟨hd, hn⟩ := x5_timers s t h
    exact ⟨fun _ => hd, fun _ => hn⟩
  rw [if_neg hc5] at h
  by_cases hc6 : (s.opcode &&& 0xF000) >>> 12 = 6
  · rw [if_pos hc6] at h
    obtain ⟨hd, hn⟩ := x6_timers s t h
    exact ⟨fun _ => hd, fun _ => hn⟩
  rw [if_neg hc6] at h
  by_cases hc7 : (s.opcode &&& 0xF000) >>> 12 = 7
  · rw [if_pos hc7] at h
    obtain ⟨hd, hn⟩ := x7_timers s t h
    exact ⟨fun _ => hd, fun _ => hn⟩
  rw [if_neg hc7] at h
  by_cases hc8 : (s.opcode &&& 0xF000) >>> 12 = 8
  · rw [if_pos hc8] at h
    obtain ⟨hd, hn⟩ := x8_timers s t h
    exact ⟨fun _ => hd, fun _ => hn⟩
  rw [if_neg hc8] at h
  by_cases hc9 : (s.opcode &&& 0xF000) >>> 12 = 9
  · rw [if_pos hc9] at h
    obtain ⟨hd, hn⟩ := x9_timers s t h
    exact ⟨fun _ => hd, fun _ => hn⟩
  rw [if_neg hc9] at h
  by_cases hc10 : (s.opcode &&& 0xF000) >>> 12 = 10
  · rw [if_pos hc10] at h
    obtain ⟨hd, hn⟩ := xA_timers s t h
    exact ⟨fun _ => hd, fun _ => hn⟩
  rw [if_neg hc10] at h
  by_cases hc11 : (s.opcode &&& 0xF000) >>> 12 = 11
  · rw [if_pos hc11] at h
    obtain ⟨hd, hn⟩ := xB_timers s t h
    exact ⟨fun _ => hd, fun _ => hn⟩
  rw [if_neg hc11] at h
  by_cases hc12 : (s.opcode &&& 0xF000) >>> 12 = 12
  · rw [if_pos hc12] at h
    obtain ⟨hd, hn⟩ := xC_timers s r t h
    exact ⟨fun _ => hd, fun _ => hn⟩
  rw [if_neg hc12] at h
  by_cases hc13 : (s.opcode &&& 0xF000) >>> 12 = 13
  · rw [if_pos hc13] at h
    obtain ⟨hd, hn⟩ := xD_timers s t h
    exact ⟨fun _ => hd, fun _ => hn⟩
  rw [if_neg hc13] at h
  by_cases hc14 : (s.opcode &&& 0xF000) >>> 12 = 14
  · rw [if_pos hc14] at h
    obtain ⟨hd, hn⟩ := xE_timers s t h
    exact ⟨fun _ => hd, fun _ => hn⟩
  rw [if_neg hc14] at h
  obtain ⟨hd, hn⟩ := xF_timers s t h
  have hnib : (s.opcode &&& 0xF000) >>> 12 = 0xF := by
    have h1 : s.opcode &&& 0xF000 ≤ 0xF000 := Nat.and_le_right
    have h2 : (s.opcode &&& 0xF000) >>> 12 = (s.opcode &&& 0xF000) / 4096 := by
      rw [Nat.shiftRight_eq_div_pow]
    omega
  exact ⟨fun hne => hd (fun hc => hne ⟨hnib, hc⟩),
    fun hne => hn (fun hc => hne ⟨hnib, hc⟩)⟩

/-- Claim C9 counterexample: a Step executing `F015` with `V0 = 0` while the
delay timer holds 5 leaves the delay timer at 0, not 4: the instruction's
write replaces the timer value before the post-execute tick. -/
theorem timer_write_overrides_tick :
    cexDelay.delay = 5 ∧ onOk (chip8_clock cexDelay 0) Chip8.delay = some 0 :=
  ⟨rfl, rfl⟩

theorem memRead_value (s : Chip8) (a v : Nat) (h : memRead s a = .ok v) :
    v = s.memory a := by
  unfold memRead at h
  split at h
  · cases h; rfl
  · exact Except.noConfusion h

/-- Claim C9, amended: on every non-faulting Step whose fetched instruction
is not `FX15` (resp. `FX18`) — the only instructions that write a timer —
the delay (resp. sound) timer decreases by exactly 1 if it was positive and
stays 0 if it was 0; it never goes below 0 and never drops by more than one.
(When the instruction is `FX15`/`FX18` the tick instead applies to the value
the instruction just wrote, as `timer_write_overrides_tick` shows.) -/
theorem clock_timer_tick (s : Chip8) (r : Nat)
    (hok : okB (chip8_clock s r) = true) :
    (¬((((s.memory s.pc <<< 8 ||| s.memory (s.pc + 1)) % 65536) &&& 0xF000) >>> 12 = 0xF ∧
        ((s.memory s.pc <<< 8 ||| s.memory (s.pc + 1)) % 65536) &&& 0x00FF = 0x15) →
      onOk (chip8_clock s r) Chip8.delay =
        some (if s.delay > 0 then s.delay - 1 else s.delay)) ∧
    (¬((((s.memory s.pc <<< 8 ||| s.memory (s.pc + 1)) % 65536) &&& 0xF000) >>> 12 = 0xF ∧
        ((s.memory s.pc <<< 8 ||| s.memory (s.pc + 1)) % 65536) &&& 0x00FF = 0x18) →
      onOk (chip8_clock s r) Chip8.sound =
        some (if s.sound > 0 then s.sound - 1 else s.sound)) := by
  have hcl : chip8_clock s r = (memRead s s.pc >>= fun hi =>
      memRead s (s.pc + 1) >>= fun lo =>
      execOp { s with opcode := (hi <<< 8 ||| lo) % 65536,
                      pc := (s.pc + 2) % 65536 } r >>= fun t =>
      .ok { t with delay := if t.delay > 0 then t.delay - 1 else t.delay,
                   sound := if t.sound > 0 then t.sound - 1 else t.sound }) := rfl
  rw [hcl] at hok ⊢
  rcases e1 : memRead s s.pc with f1 | hi
  · rw [e1, errBind] at hok; exact Bool.noConfusion hok
  rw [e1, okBind] at hok
  simp only [okBind]
  rcases e2 : memRead s (s.pc + 1) with f2 | lo
  · rw [e2, errBind] at hok; exact Bool.noConfusion hok
  rw [e2, okBind] at hok
  simp only [okBind]
  have hhi : hi = s.memory s.pc := memRead_value s s.pc hi e1
  have hlo : lo = s.memory (s.pc + 1) := memRead_value s (s.pc + 1) lo e2
  subst hhi hlo
  rcases e3 : execOp { s with opcode := (s.memory s.pc <<< 8 ||| s.memory (s.pc + 1)) % 65536, pc := (s.pc + 2) % 65536 } r with f3 | t
  · rw [e3, errBind] at hok; exact Bool.noConfusion hok
  simp only [e3, okBind]
  obtain ⟨hd, hn⟩ := execOp_timers _ r t e3
  constructor
  · intro hne
    have hd2 : t.delay = s.delay := hd hne
    show some (if t.delay > 0 then t.delay - 1 else t.delay) = _
    rw [hd2]
  · intro hne
    have hn2 : t.sound = s.sound := hn hne
    show some (if t.sound > 0 then t.sound - 1 else t.sound) = _
    rw [hn2]

/-- Machine whose next instruction is `6005` (set `V0`), with delay 5. -/
def tickWit : Chip8 :=
  { baseState with
    delay := 5
    memory := fun a => if a = 0x200 then 0x60 else if a = 0x201 then 0x05 else 0 }

/-- Claim C9 witness: the benign instruction `6005` lets both timers tick
normally (delay 5 → 4, sound 0 → 0). -/
theorem clock_timer_tick_witness :
    (¬((((tickWit.memory tickWit.pc <<< 8 ||| tickWit.memory (tickWit.pc + 1)) % 65536) &&& 0xF000) >>> 12 = 0xF ∧
        ((tickWit.memory tickWit.pc <<< 8 ||| tickWit.memory (tickWit.pc + 1)) % 65536) &&& 0x00FF = 0x15) →
      onOk (chip8_clock tickWit 0) Chip8.delay =
        some (if tickWit.delay > 0 then tickWit.delay - 1 else tickWit.delay)) ∧
    (¬((((tickWit.memory tickWit.pc <<< 8 ||| tickWit.memory (tickWit.pc + 1)) % 65536) &&& 0xF000) >>> 12 = 0xF ∧
        ((tickWit.memory tickWit.pc <<< 8 ||| tickWit.memory (tickWit.pc + 1)) % 65536) &&& 0x00FF = 0x18) →
      onOk (chip8_clock tickWit 0) Chip8.sound =
        some (if tickWit.sound > 0 then tickWit.sound - 1 else tickWit.sound)) :=
  clock_timer_tick tickWit 0 (by rfl)

theorem scanKeys_none (k : Nat → Bool) : ∀ (fuel i : Nat),
    (∀ j, i ≤ j → j < i + fuel → k j = false) → scanKeys k fuel i = none := by
  intro fuel
  induction fuel with
  | zero => intro i _; rfl
  | succ fuel ih =>
    intro i h
    show (if k i then some i else scanKeys k fuel (i + 1)) = none
    rw [if_neg (by simp [h i le_rfl (by omega)])]
    exact ih (i + 1) (fun j h1 h2 => h j (by omega) (by omega))

theorem scanKeys_found (k : Nat → Bool) : ∀ (fuel i m : Nat), i ≤ m → m < i + fuel →
    k m = true → (∀ j, i ≤ j → j < m → k j = false) → scanKeys k fuel i = some m := by
  intro fuel
  induction fuel with
  | zero => intro i m h1 h2 _ _; omega
  | succ fuel ih =>
    intro i m h1 h2 hkey hmin
    show (if k i then some i else scanKeys k fuel (i + 1)) = some m
    rcases Nat.eq_or_lt_of_le h1 with he | hlt
    · rw [← he] at hkey
      rw [if_pos hkey, he]
    · rw [if_neg (by simp [hmin i le_rfl hlt])]
      exact ih (i + 1) m (by omega) (by omega) hkey (fun j ha hb => hmin j (by omega) hb)

/-- Decode facts for a fetched `FX0A` opcode (memory bytes `0xF0 + X`, `0x0A`). -/
theorem awaitDecode : ∀ X : Nat, X < 16 →
    ((((240 + X) <<< 8 ||| 0x0A) % 65536) &&& 0xF000) >>> 12 = 0xF ∧
    ((((240 + X) <<< 8 ||| 0x0A) % 65536) &&& 0x0F00) >>> 8 = X ∧
    (((240 + X) <<< 8 ||| 0x0A) % 65536) &&& 0x00FF = 0x0A := by decide

theorem execOp_xF (s : Chip8) (r : Nat) (h : (s.opcode &&& 0xF000) >>> 12 = 0xF) :
    execOp s r = xF s := by
  unfold execOp dispatch
  repeat rw [if_neg (by omega)]

theorem xF_awaitKey (s : Chip8) (h : s.opcode &&& 0x00FF = 0x0A) :
    xF s = (match scanKeys s.keypad 0x10 0 with
      | some i => .ok (setV s ((s.opcode &&& 0x0F00) >>> 8) i)
      | none => .ok { s with pc := (s.pc + 65534) % 65536 }) := by
  simp only [xF]
  rw [if_neg (by omega), if_pos h]

/-- The machine state right after fetching an `FX0A` opcode stored as the
bytes `0xF0 + X`, `0x0A`: opcode loaded, `pc` advanced by 2. -/
def awaitState (s : Chip8) (X : Nat) : Chip8 :=
  { s with opcode := ((240 + X) <<< 8 ||| 0x0A) % 65536, pc := (s.pc + 2) % 65536 }

/-- Claim C6: while the instruction at `pc` is `FX0A` and no keypad flag is
set, a Step leaves `pc`, memory, keypad and all registers unchanged (so the
machine keeps re-executing the same instruction); on the first Step with some
key pressed, `pc` advances by 2 net and `VX` receives the lowest-indexed
pressed key. -/
theorem await_key_spec (s : Chip8) (r X : Nat) (hX : X < 16)
    (hpc : s.pc + 1 < 4096)
    (hhi : s.memory s.pc = 240 + X) (hlo : s.memory (s.pc + 1) = 0x0A) :
    ((∀ i, i < 16 → s.keypad i = false) →
      ∃ t, chip8_clock s r = .ok t ∧ t.pc = s.pc ∧ t.memory = s.memory ∧
        t.keypad = s.keypad ∧ t.V = s.V) ∧
    (∀ m, m < 16 → s.keypad m = true → (∀ j, j < m → s.keypad j = false) →
      ∃ t, chip8_clock s r = .ok t ∧ t.pc = (s.pc + 2) % 65536 ∧ t.V X = m) := by
  obtain ⟨d1, d2, d3⟩ := awaitDecode X hX
  have h1 : chip8_clock s r = (execOp (awaitState s X) r >>= fun t =>
      .ok { t with delay := if t.delay > 0 then t.delay - 1 else t.delay,
                   sound := if t.sound > 0 then t.sound - 1 else t.sound }) := by
    rw [show chip8_clock s r = (memRead s s.pc >>= fun hi =>
        memRead s (s.pc + 1) >>= fun lo =>
        execOp { s with opcode := (hi <<< 8 ||| lo) % 65536,
                        pc := (s.pc + 2) % 65536 } r >>= fun t =>
        .ok { t with delay := if t.delay > 0 then t.delay - 1 else t.delay,
                     sound := if t.sound > 0 then t.sound - 1 else t.sound })
      from rfl]
    rw [memRead_ok s s.pc (by omega), okBind,
      memRead_ok s (s.pc + 1) (by omega), okBind, hhi, hlo]
    rfl
  have h2 : execOp (awaitState s X) r = xF (awaitState s X) :=
    execOp_xF _ r d1
  have h3 := xF_awaitKey (awaitState s X) d3
  constructor
  · intro hnone
    have hsn : scanKeys s.keypad 0x10 0 = none :=
      scanKeys_none s.keypad 0x10 0 (fun j ha hb => hnone j (by omega))
    rw [h1, h2, h3]
    rw [show scanKeys (awaitState s X).keypad 0x10 0 = none from hsn]
    refine ⟨_, rfl, ?_, rfl, rfl, rfl⟩
    show (((s.pc + 2) % 65536 + 65534) % 65536) = s.pc
    omega
  · intro m hm hkey hmin
    have hsm : scanKeys s.keypad 0x10 0 = some m :=
      scanKeys_found s.keypad 0x10 0 m (by omega) (by omega) hkey
        (fun j ha hb => hmin j hb)
    rw [h1, h2, h3]
    rw [show scanKeys (awaitState s X).keypad 0x10 0 = some m from hsm]
    refine ⟨_, rfl, rfl, ?_⟩
    show Function.update s.V
      (((((240 + X) <<< 8 ||| 0x0A) % 65536) &&& 0x0F00) >>> 8) (m % 256) X = m
    rw [d2, Function.update_apply, if_pos rfl, Nat.mod_eq_of_lt (by omega)]

/-- Machine whose next instruction is `F50A` (await key into `V5`), key 3
and key 7 pressed. -/
def awaitWit : Chip8 :=
  { baseState with
    memory := fun a => if a = 0x200 then 0xF5 else if a = 0x201 then 0x0A else 0
    keypad := fun i => i = 3 ∨ i = 7 }

/-- Claim C6 witness: the concrete await-key machine `awaitWit`. -/
theorem await_key_spec_witness :
    ((∀ i, i < 16 → awaitWit.keypad i = false) →
      ∃ t, chip8_clock awaitWit 0 = .ok t ∧ t.pc = awaitWit.pc ∧
        t.memory = awaitWit.memory ∧ t.keypad = awaitWit.keypad ∧
        t.V = awaitWit.V) ∧
    (∀ m, m < 16 → awaitWit.keypad m = true →
      (∀ j, j < m → awaitWit.keypad j = false) →
      ∃ t, chip8_clock awaitWit 0 = .ok t ∧ t.pc = (awaitWit.pc + 2) % 65536 ∧
        t.V 5 = m) :=
  await_key_spec awaitWit 0 5 (by decide) (by decide) (by decide) (by decide)

/-- Cells toggled by the column loop started at `col` with `fuel` iterations
left. -/
def ColMaskP (X Yr byte fuel col i : Nat) : Prop :=
  ∃ c, c < fuel ∧ X + (col + c) ≤ 63 ∧ spriteBit byte (col + c) = true ∧
    i = X + (col + c) + Yr * 64

instance (X Yr byte fuel col i : Nat) : Decidable (ColMaskP X Yr byte fuel col i) := by
  unfold ColMaskP; infer_instance

/-- Collision condition of the column loop against the framebuffer `d`. -/
def ColHitP (X Yr byte fuel col : Nat) (d : Nat → Bool) : Prop :=
  ∃ c, c < fuel ∧ X + (col + c) ≤ 63 ∧ spriteBit byte (col + c) = true ∧
    d (X + (col + c) + Yr * 64) = true

instance (X Yr byte fuel col : Nat) (d : Nat → Bool) :
    Decidable (ColHitP X Yr byte fuel col d) := by
  unfold ColHitP; infer_instance

/-- Cells toggled by the row loop started at `row` with `fuel` rows left. -/
def RowMaskP (X Y fuel row : Nat) (mem : Nat → Nat) (idx i : Nat) : Prop :=
  ∃ r, r < fuel ∧ Y + (row + r) ≤ 31 ∧ ∃ c, c < 8 ∧ X + c ≤ 63 ∧
    spriteBit (mem (idx + (row + r))) c = true ∧
    i = (X + c) + (Y + (row + r)) * 64

instance (X Y fuel row : Nat) (mem : Nat → Nat) (idx i : Nat) :
    Decidable (RowMaskP X Y fuel row mem idx i) := by
  unfold RowMaskP; infer_instance

/-- Collision condition of the row loop against the framebuffer `d`. -/
def RowHitP (X Y fuel row : Nat) (mem : Nat → Nat) (idx : Nat) (d : Nat → Bool) : Prop :=
  ∃ r, r < fuel ∧ Y + (row + r) ≤ 31 ∧ ∃ c, c < 8 ∧ X + c ≤ 63 ∧
    spriteBit (mem (idx + (row + r))) c = true ∧
    d ((X + c) + (Y + (row + r)) * 64) = true

instance (X Y fuel row : Nat) (mem : Nat → Nat) (idx : Nat) (d : Nat → Bool) :
    Decidable (RowHitP X Y fuel row mem idx d) := by
  unfold RowHitP; infer_instance

theorem xor_decide_disjoint (p q R : Prop) [Decidable p] [Decidable q] [Decidable R]
    (hdisj : ¬(p ∧ q)) (hiff : R ↔ p ∨ q) :
    xor (decide p) (decide q) = decide R := by
  by_cases hp : p <;> by_cases hq : q
  · exact absurd ⟨hp, hq⟩ hdisj
  all_goals simp [hp, hq, hiff]

theorem and_decide_eq (b : Bool) (q : Prop) [Decidable q] :
    (b && decide q) = decide (b = true ∧ q) := by
  cases b <;> simp

theorem ite_one_or (p q R : Prop) [Decidable p] [Decidable q] [Decidable R]
    (v : Nat) (hiff : R ↔ p ∨ q) :
    (if p then (1 : Nat) else if q then 1 else v) = if R then 1 else v := by
  by_cases hp : p <;> by_cases hq : q <;> simp [hp, hq, hiff]

theorem drawPixel_display (s : Chip8) (p : Bool) (idx j : Nat) :
    (drawPixel s p idx).display j = xor (s.display j) (p && decide (j = idx)) := by
  unfold drawPixel
  cases p
  · simp
  · by_cases hd : s.display idx
    · rw [if_pos (by simp [hd])]
      show Function.update s.display idx false j = _
      rw [Function.update_apply]
      by_cases hj : j = idx
      · subst hj; simp [hd]
      · simp [hj]
    · rw [if_neg (by simp [hd]), if_pos (by simp [hd])]
      show Function.update s.display idx true j = _
      rw [Function.update_apply]
      by_cases hj : j = idx
      · subst hj; simp [hd]
      · simp [hj]

theorem drawPixel_V15 (s : Chip8) (p : Bool) (idx : Nat) :
    (drawPixel s p idx).V 0xF = if p && s.display idx then 1 else s.V 0xF := by
  unfold drawPixel
  by_cases h : p && s.display idx
  · rw [if_pos h, if_pos h]
    show Function.update s.V 0xF 1 0xF = 1
    simp
  · rw [if_neg h, if_neg h]
    split <;> rfl

theorem drawCols_display (X Yr byte : Nat) : ∀ (fuel col : Nat) (s : Chip8) (i : Nat),
    (drawCols X Yr byte fuel col s).display i =
      xor (s.display i) (decide (ColMaskP X Yr byte fuel col i)) := by
  intro fuel
  induction fuel with
  | zero =>
    intro col s i
    have hno : ¬ColMaskP X Yr byte 0 col i := by
      rintro ⟨c, hc, _⟩; omega
    rw [show drawCols X Yr byte 0 col s = s from rfl]
    simp [hno]
  | succ fuel ih =>
    intro col s i
    rw [show drawCols X Yr byte (fuel + 1) col s =
      (if X + col > 63 then s
       else drawCols X Yr byte fuel (col + 1)
         (drawPixel s (spriteBit byte col) ((X + col) + Yr * 64))) from rfl]
    by_cases hb : X + col > 63
    · rw [if_pos hb]
      have hno : ¬ColMaskP X Yr byte (fuel + 1) col i := by
        rintro ⟨c, hc, hle, _⟩; omega
      simp [hno]
    · rw [if_neg hb, ih, drawPixel_display, Bool.xor_assoc]
      congr 1
      rw [and_decide_eq]
      refine xor_decide_disjoint _ _ _ ?_ ?_
      · rintro ⟨⟨hbit, hi⟩, c, hc, hle, hb2, hi2⟩
        omega
      · constructor
        · rintro ⟨c, hc, hle, hbit, hi⟩
          rcases c with _ | c
          · exact Or.inl ⟨hbit, hi⟩
          · have harg : col + (c + 1) = (col + 1) + c := by omega
            rw [harg] at hle hbit hi
            exact Or.inr ⟨c, by omega, hle, hbit, hi⟩
        · rintro (⟨hbit, hi⟩ | ⟨c, hc, hle, hbit, hi⟩)
          · exact ⟨0, by omega, by omega, hbit, hi⟩
          · have harg : (col + 1) + c = col + (c + 1) := by omega
            rw [harg] at hle hbit hi
            exact ⟨c + 1, by omega, hle, hbit, hi⟩

theorem drawCols_V15 (X Yr byte : Nat) : ∀ (fuel col : Nat) (s : Chip8),
    (drawCols X Yr byte fuel col s).V 0xF =
      if ColHitP X Yr byte fuel col s.display then 1 else s.V 0xF := by
  intro fuel
  induction fuel with
  | zero =>
    intro col s
    have hno : ¬ColHitP X Yr byte 0 col s.display := by
      rintro ⟨c, hc, _⟩; omega
    rw [if_neg hno]
    rfl
  | succ fuel ih =>
    intro col s
    rw [show drawCols X Yr byte (fuel + 1) col s =
      (if X + col > 63 then s
       else drawCols X Yr byte fuel (col + 1)
         (drawPixel s (spriteBit byte col) ((X + col) + Yr * 64))) from rfl]
    by_cases hb : X + col > 63
    · rw [if_pos hb]
      have hno : ¬ColHitP X Yr byte (fuel + 1) col s.display := by
        rintro ⟨c, hc, hle, _⟩; omega
      rw [if_neg hno]
    · rw [if_neg hb, ih, drawPixel_V15]
      have hdis : ColHitP X Yr byte fuel (col + 1)
          (drawPixel s (spriteBit byte col) ((X + col) + Yr * 64)).display ↔
          ColHitP X Yr byte fuel (col + 1) s.display := by
        constructor <;> rintro ⟨c, hc, hle, hbit, hd⟩ <;>
          refine ⟨c, hc, hle, hbit, ?_⟩
        · rw [drawPixel_display] at hd
          have hne : X + ((col + 1) + c) + Yr * 64 ≠ (X + col) + Yr * 64 := by omega
          simpa [hne] using hd
        · rw [drawPixel_display]
          have hne : X + ((col + 1) + c) + Yr * 64 ≠ (X + col) + Yr * 64 := by omega
          simpa [hne] using hd
      simp only [hdis]
      refine ite_one_or _ _ _ _ ?_
      constructor
      · rintro ⟨c, hc, hle, hbit, hd⟩
        rcases c with _ | c
        · exact Or.inr (by simpa [Bool.and_eq_true] using ⟨hbit, hd⟩)
        · have harg : col + (c + 1) = (col + 1) + c := by omega
          rw [harg] at hle hbit hd
          exact Or.inl ⟨c, by omega, hle, hbit, hd⟩
      · rintro (⟨c, hc, hle, hbit, hd⟩ | hAnd)
        · have harg : (col + 1) + c = col + (c + 1) := by omega
          rw [harg] at hle hbit hd
          exact ⟨c + 1, by omega, hle, hbit, hd⟩
        · rw [Bool.and_eq_true] at hAnd
          exact ⟨0, by omega, by omega, hAnd.1, hAnd.2⟩

theorem drawRows_spec (X Y : Nat) : ∀ (fuel row : Nat) (s : Chip8),
    (∀ r, r < fuel → s.index + (row + r) < 4096) →
    ∃ t, drawRows X Y fuel row s = .ok t ∧
      (∀ i, t.display i =
        xor (s.display i) (decide (RowMaskP X Y fuel row s.memory s.index i))) ∧
      t.V 0xF = (if RowHitP X Y fuel row s.memory s.index s.display
        then 1 else s.V 0xF) := by
  intro fuel
  induction fuel with
  | zero =>
    intro row s _
    have hnm : ∀ i, ¬RowMaskP X Y 0 row s.memory s.index i := by
      rintro i ⟨r, hr, _⟩; omega
    have hnh : ¬RowHitP X Y 0 row s.memory s.index s.display := by
      rintro ⟨r, hr, _⟩; omega
    exact ⟨s, rfl, fun i => by simp [hnm i], by rw [if_neg hnh]⟩
  | succ fuel ih =>
    intro row s hb
    rw [show drawRows X Y (fuel + 1) row s = (memRead s (s.index + row) >>=
      fun pixelByte => if Y + row > 31 then .ok s
        else drawRows X Y fuel (row + 1) (drawCols X (Y + row) pixelByte 8 0 s))
      from rfl]
    rw [memRead_ok s (s.index + row) (by have := hb 0 (by omega); omega), okBind]
    by_cases hy : Y + row > 31
    · rw [if_pos hy]
      have hnm : ∀ i, ¬RowMaskP X Y (fuel + 1) row s.memory s.index i := by
        rintro i ⟨r, hr, hYr, _⟩; omega
      have hnh : ¬RowHitP X Y (fuel + 1) row s.memory s.index s.display := by
        rintro ⟨r, hr, hYr, _⟩; omega
      exact ⟨s, rfl, fun i => by simp [hnm i], by rw [if_neg hnh]⟩
    · rw [if_neg hy]
      obtain ⟨hm, hix, _, _, _, _, _, _, _, hV⟩ :=
        drawCols_frame X (Y + row) (s.memory (s.index + row)) 8 0 s
      obtain ⟨t, hrun, hdisp, hv⟩ := ih (row + 1)
        (drawCols X (Y + row) (s.memory (s.index + row)) 8 0 s)
        (fun r hr => by rw [hix]; have := hb (r + 1) (by omega); omega)
      rw [hm, hix] at hdisp hv
      refine ⟨t, hrun, ?_, ?_⟩
      · intro i
        rw [hdisp i, drawCols_display, Bool.xor_assoc]
        congr 1
        refine xor_decide_disjoint _ _ _ ?_ ?_
        · rintro ⟨⟨c, hc, hle, hbit, hi⟩, r, hr, hYr, c2, hc2, hle2, hbit2, hi2⟩
          omega
        · constructor
          · rintro ⟨r, hr, hYr, c, hc, hle, hbit, hi⟩
            rcases r with _ | r
            · refine Or.inl ⟨c, hc, ?_, ?_, ?_⟩
              · omega
              · rw [Nat.zero_add]; exact hbit
              · rw [Nat.zero_add]; omega
            · have harg : row + (r + 1) = (row + 1) + r := by omega
              rw [harg] at hYr hbit hi
              exact Or.inr ⟨r, by omega, hYr, c, hc, hle, hbit, hi⟩
          · rintro (⟨c, hc, hle, hbit, hi⟩ | ⟨r, hr, hYr, c, hc, hle, hbit, hi⟩)
            · rw [Nat.zero_add] at hle hbit hi
              exact ⟨0, by omega, by omega, c, hc, hle, hbit, by omega⟩
            · have harg : (row + 1) + r = row + (r + 1) := by omega
              rw [harg] at hYr hbit hi
              exact ⟨r + 1, by omega, hYr, c, hc, hle, hbit, hi⟩
      · rw [hv, drawCols_V15]
        have hdis2 : RowHitP X Y fuel (row + 1) s.memory s.index
            (drawCols X (Y + row) (s.memory (s.index + row)) 8 0 s).display ↔
            RowHitP X Y fuel (row + 1) s.memory s.index s.display := by
          constructor <;> rintro ⟨r, hr, hYr, c, hc, hle, hbit, hd⟩ <;>
            refine ⟨r, hr, hYr, c, hc, hle, hbit, ?_⟩
          · rw [drawCols_display] at hd
            have hno : ¬ColMaskP X (Y + row) (s.memory (s.index + row)) 8 0
                ((X + c) + (Y + ((row + 1) + r)) * 64) := by
              rintro ⟨c2, hc2, hle2, hbit2, hi2⟩; omega
            simpa [hno] using hd
          · rw [drawCols_display]
            have hno : ¬ColMaskP X (Y + row) (s.memory (s.index + row)) 8 0
                ((X + c) + (Y + ((row + 1) + r)) * 64) := by
              rintro ⟨c2, hc2, hle2, hbit2, hi2⟩; omega
            simpa [hno] using hd
        simp only [hdis2]
        refine ite_one_or _ _ _ _ ?_
        constructor
        · rintro ⟨r, hr, hYr, c, hc, hle, hbit, hd⟩
          rcases r with _ | r
          · refine Or.inr ⟨c, hc, ?_, ?_, ?_⟩
            · omega
            · rw [Nat.zero_add]; exact hbit
            · rw [Nat.zero_add]
              rw [show row + 0 = row from rfl] at hd
              exact hd
          · have harg : row + (r + 1) = (row + 1) + r := by omega
            rw [harg] at hYr hbit hd
            exact Or.inl ⟨r, by omega, hYr, c, hc, hle, hbit, hd⟩
        · rintro (⟨r, hr, hYr, c, hc, hle, hbit, hd⟩ | ⟨c, hc, hle, hbit, hd⟩)
          · have harg : (row + 1) + r = row + (r + 1) := by omega
            rw [harg] at hYr hbit hd
            exact ⟨r + 1, by omega, hYr, c, hc, hle, hbit, hd⟩
          · rw [Nat.zero_add] at hle hbit hd
            exact ⟨0, by omega, by omega, c, hc, hle, hbit, hd⟩

theorem decide_iff_eq (p q : Prop) [Decidable p] [Decidable q] (h : p ↔ q) :
    decide p = decide q := by
  by_cases hp : p
  · have hq : q := h.mp hp
    simp [hp, hq]
  · have hq : ¬q := fun hq => hp (h.mpr hq)
    simp [hp, hq]

theorem ite_congr_prop (p q : Prop) [Decidable p] [Decidable q] (h : p ↔ q)
    (a b : Nat) : (if p then a else b) = (if q then a else b) := by
  by_cases hp : p
  · rw [if_pos hp, if_pos (h.mp hp)]
  · rw [if_neg hp, if_neg (fun hq => hp (h.mpr hq))]

theorem xor_xor_cancel (a b : Bool) : xor (xor a b) b = a := by
  cases a <;> cases b <;> rfl

theorem rowMask_zero (X Y N : Nat) (mem : Nat → Nat) (idx i : Nat) :
    RowMaskP X Y N 0 mem idx i ↔ DrawMaskP X Y N mem idx i := by
  unfold RowMaskP DrawMaskP
  constructor <;> rintro ⟨r, hr, h1, c, hc, h2, h3, h4⟩
  · rw [Nat.zero_add] at h1 h3 h4
    exact ⟨r, hr, h1, c, hc, h2, h3, h4⟩
  · refine ⟨r, hr, ?_, c, hc, h2, ?_, ?_⟩ <;> rw [Nat.zero_add] <;> assumption

theorem rowHit_zero (X Y N : Nat) (mem : Nat → Nat) (idx : Nat) (d : Nat → Bool) :
    RowHitP X Y N 0 mem idx d ↔ drawHits X Y N mem idx d := by
  unfold RowHitP drawHits
  constructor <;> rintro ⟨r, hr, h1, c, hc, h2, h3, h4⟩
  · rw [Nat.zero_add] at h1 h3 h4
    exact ⟨r, hr, h1, c, hc, h2, h3, h4⟩
  · refine ⟨r, hr, ?_, c, hc, h2, ?_, ?_⟩ <;> rw [Nat.zero_add] <;> assumption

/-- Full characterisation of one `DXYN` execution: every field but `display`
and `V[0xF]` is preserved, the display is XORed with the sprite's clipped
footprint, and `V[0xF]` ends 1 exactly when some sprite pixel hit a set cell. -/
theorem xD_spec (s : Chip8) (hidx : s.index + 15 < 4096) :
    ∃ t, xD s = .ok t ∧ t.memory = s.memory ∧ t.index = s.index ∧
      t.opcode = s.opcode ∧ t.pc = s.pc ∧ t.sp = s.sp ∧ t.stack = s.stack ∧
      t.delay = s.delay ∧ t.sound = s.sound ∧ t.keypad = s.keypad ∧
      (∀ j, j ≠ 0xF → t.V j = s.V j) ∧
      (∀ i, t.display i = xor (s.display i)
        (drawMask (s.V ((s.opcode &&& 0x0F00) >>> 8) % 64)
          (s.V ((s.opcode &&& 0x00F0) >>> 4) % 32) (s.opcode &&& 0x000F)
          s.memory s.index i)) ∧
      t.V 0xF = (if drawHits (s.V ((s.opcode &&& 0x0F00) >>> 8) % 64)
          (s.V ((s.opcode &&& 0x00F0) >>> 4) % 32) (s.opcode &&& 0x000F)
          s.memory s.index s.display then 1 else 0) := by
  have hN : s.opcode &&& 0x000F ≤ 15 := Nat.and_le_right
  obtain ⟨t, hrun, hdisp, hv⟩ := drawRows_spec
    (s.V ((s.opcode &&& 0x0F00) >>> 8) % 64)
    (s.V ((s.opcode &&& 0x00F0) >>> 4) % 32)
    (s.opcode &&& 0x000F) 0 { s with V := Function.update s.V 0xF 0 }
    (fun r hr => by show s.index + (0 + r) < 4096; omega)
  have hxd : xD s = .ok t := hrun
  obtain ⟨fm, fix, fop, fpc, fsp, fst, fd, fn, fk, fV⟩ :=
    drawRows_frame _ _ _ _ _ _ hrun
  refine ⟨t, hxd, fm, fix, fop, fpc, fsp, fst, fd, fn, fk, ?_, ?_, ?_⟩
  · intro j hj
    rw [fV j hj]
    show Function.update s.V 0xF 0 j = s.V j
    rw [Function.update_apply, if_neg hj]
  · intro i
    have hd : t.display i = xor (s.display i)
        (decide (RowMaskP (s.V ((s.opcode &&& 0x0F00) >>> 8) % 64)
          (s.V ((s.opcode &&& 0x00F0) >>> 4) % 32) (s.opcode &&& 0x000F) 0
          s.memory s.index i)) := hdisp i
    rw [hd]
    congr 1
    unfold drawMask
    exact decide_iff_eq _ _ (rowMask_zero _ _ _ _ _ _)
  · have hv2 : t.V 0xF = (if RowHitP (s.V ((s.opcode &&& 0x0F00) >>> 8) % 64)
        (s.V ((s.opcode &&& 0x00F0) >>> 4) % 32) (s.opcode &&& 0x000F) 0
        s.memory s.index s.display then 1 else 0) := hv
    rw [hv2]
    exact ite_congr_prop _ _ (rowHit_zero _ _ _ _ _ _) 1 0

/-- Claim C4 counterexample: for the draw instruction `DF01` the X coordinate
register is `VF` itself; the first draw resets `VF` to 0, so the second draw
renders at a different column and the framebuffer is not restored (cells 0
and 1 both end up set from an all-clear screen). -/
theorem draw_twice_vf_coord_cex :
    cexDrawVF.display 0 = false ∧ cexDrawVF.display 1 = false ∧
    onOk (xD cexDrawVF >>= xD) (fun u => (u.display 0, u.display 1)) =
      some (true, true) :=
  ⟨rfl, rfl, rfl⟩

/-- Claim C4, amended: provided the sprite reads stay inside memory
(`index + 15 < 4096`, else the draw faults) and neither coordinate register
is `VF` itself (whose reset by the first draw would move the second sprite),
drawing the same sprite twice restores the framebuffer exactly, and the
second draw leaves `VF = 1` iff some sprite pixel overlapped a pixel set in
the intermediate framebuffer. -/
theorem draw_twice_restores (s : Chip8)
    (hx : (s.opcode &&& 0x0F00) >>> 8 ≠ 0xF)
    (hy : (s.opcode &&& 0x00F0) >>> 4 ≠ 0xF)
    (hidx : s.index + 15 < 4096) :
    ∃ t u, xD s = .ok t ∧ xD t = .ok u ∧
      (∀ i, u.display i = s.display i) ∧
      u.V 0xF = (if drawHits (s.V ((s.opcode &&& 0x0F00) >>> 8) % 64)
          (s.V ((s.opcode &&& 0x00F0) >>> 4) % 32) (s.opcode &&& 0x000F)
          s.memory s.index t.display then 1 else 0) := by
  obtain ⟨t, ht, tm, tix, top, _, _, _, _, _, _, tV, tdisp, _⟩ := xD_spec s hidx
  obtain ⟨u, hu, _, _, _, _, _, _, _, _, _, _, udisp, uv⟩ :=
    xD_spec t (by rw [tix]; exact hidx)
  have hVx : t.V ((t.opcode &&& 0x0F00) >>> 8) = s.V ((s.opcode &&& 0x0F00) >>> 8) := by
    rw [top]
    exact tV _ hx
  have hVy : t.V ((t.opcode &&& 0x00F0) >>> 4) = s.V ((s.opcode &&& 0x00F0) >>> 4) := by
    rw [top]
    exact tV _ hy
  refine ⟨t, u, ht, hu, ?_, ?_⟩
  · intro i
    rw [udisp i, tdisp i, hVx, hVy, top, tm, tix, xor_xor_cancel]
  · rw [uv, hVx, hVy, top, tm, tix]

/-- `DXYN` machine: opcode `D122`, sprite rows `0xFF`, `0xAA` at `index = 0`,
drawn at `(V1, V2) = (62, 31)` (clipped on both edges). -/
def drawWit : Chip8 :=
  { baseState with
    opcode := 0xD122
    V := fun i => if i = 1 then 62 else if i = 2 then 31 else 0
    memory := fun a => if a = 0 then 0xFF else if a = 1 then 0xAA else 0 }

/-- Claim C4 witness: the concrete clipped draw `drawWit`. -/
theorem draw_twice_restores_witness :
    ∃ t u, xD drawWit = .ok t ∧ xD t = .ok u ∧
      (∀ i, u.display i = drawWit.display i) ∧
      u.V 0xF = (if drawHits (drawWit.V ((drawWit.opcode &&& 0x0F00) >>> 8) % 64)
          (drawWit.V ((drawWit.opcode &&& 0x00F0) >>> 4) % 32)
          (drawWit.opcode &&& 0x000F)
          drawWit.memory drawWit.index t.display then 1 else 0) :=
  draw_twice_restores drawWit (by decide) (by decide) (by decide)
